import Mathlib

/-!
# srclib: ref sort order, ref sets, import cleaning and tree-tier fan-out

A shallow embedding of `graph/ref.go` (the `Ref` record, `sortKey`, `Refs.Less`,
`RefSet`) and of `store/unit_store.go` (`cleanForImport`, `unitStores.Defs`,
`unitStores.Refs`), followed by theorems about them.

Modelling conventions.

* A Go `string` is a byte sequence; `+` is concatenation and `<` is the bytewise
  lexicographic order.  It is embedded as a Lean `String` in which every `Char`
  stands for one byte; `strLess` is the lexicographic order on the character
  codes, so concatenation and comparison are the Go ones.
* A Go `int` is embedded as `Int`; the only operation applied to `Start` and
  `End` is the decimal rendering `strconv.Itoa`, which does not overflow.
* In `cleanForImport` the slices of record pointers of a bundle (`[]*Ref`,
  `[]*Def`, ...) are embedded as lists of record values, and a loop that
  assigns to the fields of every element is a `List.map`; a pointer repeated
  in a bundle is blanked twice, which changes nothing.
* In `unitStores.Defs` and `unitStores.Refs` the pointers are kept: the unit
  stores return addresses, the records are held in a memory, and the workers
  write through the addresses, so a record that two unit stores hand out is
  one record.
-/

namespace Srclib

/-! ## graph/ref.go -/

namespace graph

/-- Ref represents a reference from source code to a def (`graph.Ref`). -/
structure Ref where
  DefRepo : String
  DefUnitType : String
  DefUnit : String
  DefPath : String
  Def : Bool
  Repo : String
  CommitID : String
  UnitType : String
  Unit : String
  File : String
  Start : Int
  End : Int
deriving DecidableEq, Repr

/-- The order `<` of Go on byte sequences: lexicographic on the bytes (here
the characters), a proper prefix being smaller. -/
def bytesLess : List Char → List Char → Prop
  | [], [] => False
  | [], _ :: _ => True
  | _ :: _, [] => False
  | a :: as, b :: bs => a < b ∨ (a = b ∧ bytesLess as bs)

/-- Deciding `bytesLess` by walking down both sequences. -/
def bytesLess.decide : (x y : List Char) → Decidable (bytesLess x y)
  | [], [] => isFalse (fun h => h)
  | [], _ :: _ => isTrue trivial
  | _ :: _, [] => isFalse (fun h => h)
  | a :: as, b :: bs =>
      have : Decidable (bytesLess as bs) := bytesLess.decide as bs
      inferInstanceAs (Decidable (a < b ∨ (a = b ∧ bytesLess as bs)))

instance (x y : List Char) : Decidable (bytesLess x y) := bytesLess.decide x y

/-- The comparison `<` of two Go strings. -/
def strLess (s t : String) : Prop := bytesLess s.data t.data

instance (s t : String) : Decidable (strLess s t) := by
  unfold strLess; infer_instance

/-- Decimal rendering of an integer, as `strconv.Itoa` produces it: a minus
sign for a negative number, then the decimal digits without leading zeros. -/
def Itoa (i : Int) : String :=
  match i with
  | Int.ofNat n => Nat.repr n
  | Int.negSucc n => "-" ++ Nat.repr (n + 1)

/-- The string `Ref.sortKey` builds: the ten key parts concatenated without
any separator. -/
def Ref.sortKey (r : Ref) : String :=
  r.DefPath ++ r.DefRepo ++ r.DefUnitType ++ r.DefUnit ++ r.Repo ++ r.UnitType ++ r.Unit
    ++ r.File ++ Itoa r.Start ++ Itoa r.End

/-- Refs is a slice of refs (`type Refs []*Ref`). -/
abbrev Refs := List Ref

/-- The comparison `Refs.Less` performs on two elements of the slice: the
sort keys are compared as strings. -/
def Refs.LessRef (a b : Ref) : Prop := strLess a.sortKey b.sortKey

instance (a b : Ref) : Decidable (Refs.LessRef a b) := by
  unfold Refs.LessRef; infer_instance

/-- The method `Refs.Less(i, j)`: compares the elements at two valid indices. -/
def Refs.Less (vs : Refs) (i j : Fin vs.length) : Prop :=
  Refs.LessRef (vs.get i) (vs.get j)

instance (vs : Refs) (i j : Fin vs.length) : Decidable (Refs.Less vs i j) := by
  unfold Refs.Less; infer_instance

/-- RefSet is a set of refs; the Go map `map[Ref]struct{}` is keyed by the
whole `Ref` value, and is embedded as the list of its keys. -/
structure RefSet where
  refs : List Ref
deriving Repr

/-- A fresh, empty set (`NewRefSet`). -/
def NewRefSet : RefSet := ⟨[]⟩

/-- AddAndCheckUnique adds ref to the set of seen refs, and returns whether
the ref already existed in the set, together with the set afterwards. -/
def RefSet.AddAndCheckUnique (c : RefSet) (ref : Ref) : RefSet × Bool :=
  if ref ∈ c.refs then (c, true) else (⟨ref :: c.refs⟩, false)

/-- The key tuple the specification names, in its order:
`(DefPath, DefRepo, DefUnitType, DefUnit, Repo, UnitType, Unit, File, Start, End)`. -/
structure KeyTuple where
  DefPath : String
  DefRepo : String
  DefUnitType : String
  DefUnit : String
  Repo : String
  UnitType : String
  Unit : String
  File : String
  Start : Int
  End : Int
deriving DecidableEq, Repr

/-- The key tuple of a ref. -/
def keyTuple (r : Ref) : KeyTuple :=
  { DefPath := r.DefPath, DefRepo := r.DefRepo, DefUnitType := r.DefUnitType,
    DefUnit := r.DefUnit, Repo := r.Repo, UnitType := r.UnitType, Unit := r.Unit,
    File := r.File, Start := r.Start, End := r.End }

/-- One step of a lexicographic comparison: the heads decide, or they are
equal and the rest decides. -/
def lexStep {α : Type} (lt : α → α → Prop) (x y : α) (rest : Prop) : Prop :=
  lt x y ∨ (x = y ∧ rest)

/-- The lexicographic order on key tuples as the specification words it:
strings compared as strings, `Start` and `End` compared as integers. -/
def tupleLess (a b : Ref) : Prop :=
  lexStep strLess a.DefPath b.DefPath <|
  lexStep strLess a.DefRepo b.DefRepo <|
  lexStep strLess a.DefUnitType b.DefUnitType <|
  lexStep strLess a.DefUnit b.DefUnit <|
  lexStep strLess a.Repo b.Repo <|
  lexStep strLess a.UnitType b.UnitType <|
  lexStep strLess a.Unit b.Unit <|
  lexStep strLess a.File b.File <|
  lexStep (· < ·) a.Start b.Start <|
  a.End < b.End

instance (a b : Ref) : Decidable (tupleLess a b) := by
  unfold tupleLess lexStep; infer_instance

/-- Neither of two strings is a prefix of the other: they differ at a
position that lies within both. -/
def prefixFree (s t : String) : Prop := ¬ s.data <+: t.data ∧ ¬ t.data <+: s.data

instance (s t : String) : Decidable (prefixFree s t) := by
  unfold prefixFree; infer_instance

/-- Two integers are non-negative and have equally many decimal digits. -/
def sameDigits (i j : Int) : Prop := 0 ≤ i ∧ 0 ≤ j ∧ (Itoa i).length = (Itoa j).length

instance (i j : Int) : Decidable (sameDigits i j) := by
  unfold sameDigits; infer_instance

/-- One step of the walk along two key tuples: the two values of this part
differ in a way that settles the comparison (`free`), or they are the same and
the walk goes on with the rest. -/
def decidedStep (free same rest : Prop) : Prop := free ∨ (same ∧ rest)

/-- The first key part in which two refs differ settles the comparison of
their sort keys: if it is one of the eight string parts, neither value is a
prefix of the other; if it is `Start` or `End`, both values are non-negative
and have equally many decimal digits.  Refs with the same key tuple satisfy it
too. -/
def firstDifferenceDecides (a b : Ref) : Prop :=
  decidedStep (prefixFree a.DefPath b.DefPath) (a.DefPath = b.DefPath) <|
  decidedStep (prefixFree a.DefRepo b.DefRepo) (a.DefRepo = b.DefRepo) <|
  decidedStep (prefixFree a.DefUnitType b.DefUnitType) (a.DefUnitType = b.DefUnitType) <|
  decidedStep (prefixFree a.DefUnit b.DefUnit) (a.DefUnit = b.DefUnit) <|
  decidedStep (prefixFree a.Repo b.Repo) (a.Repo = b.Repo) <|
  decidedStep (prefixFree a.UnitType b.UnitType) (a.UnitType = b.UnitType) <|
  decidedStep (prefixFree a.Unit b.Unit) (a.Unit = b.Unit) <|
  decidedStep (prefixFree a.File b.File) (a.File = b.File) <|
  decidedStep (sameDigits a.Start b.Start ∧ a.Start ≠ b.Start) (a.Start = b.Start) <|
  (a.End = b.End ∨ sameDigits a.End b.End)

instance (a b : Ref) : Decidable (firstDifferenceDecides a b) := by
  unfold firstDifferenceDecides decidedStep; infer_instance

/-- A ref with all string fields empty, `Def` unset and `Start = End = 0`. -/
def blankRef : Ref :=
  { DefRepo := "", DefUnitType := "", DefUnit := "", DefPath := "", Def := false, Repo := "",
    CommitID := "", UnitType := "", Unit := "", File := "", Start := 0, End := 0 }

/-- A ref to the def `a` of repo `c`. -/
def refPathA_RepoC : Ref := { blankRef with DefPath := "a", DefRepo := "c" }

/-- A ref to the def `ab` of the referrer's repo. -/
def refPathAB : Ref := { blankRef with DefPath := "ab" }

/-- A ref that starts at byte 9. -/
def refStart9 : Ref := { blankRef with Start := 9, End := 9 }

/-- A ref that starts at byte 10. -/
def refStart10 : Ref := { blankRef with Start := 10, End := 10 }

/-- A ref to the def `foo/bar`, in `a.go` at bytes 20 to 24. -/
def refFooBar : Ref :=
  { blankRef with DefPath := "foo/bar", File := "a.go", Start := 20, End := 24 }

/-- A ref to the def `foo/baz/qux`, in `main.go` at bytes 5 to 9. -/
def refFooBazQux : Ref :=
  { blankRef with DefPath := "foo/baz/qux", File := "main.go", Start := 5, End := 9 }

/-- A ref to the def `a` of repo `b`. -/
def refPathA_RepoB : Ref := { blankRef with DefPath := "a", DefRepo := "b" }

/-- A ref to the def `X` in `a.go`, bytes 20 to 24. -/
def c3RefA : Ref :=
  { DefRepo := "", DefUnitType := "", DefUnit := "", DefPath := "X", Def := false, Repo := "",
    CommitID := "", UnitType := "", Unit := "", File := "a.go", Start := 20, End := 24 }

/-- The same ref with the flag `Def` set. -/
def c3RefB : Ref := { c3RefA with Def := true }

end graph

/-! ## store/unit_store.go -/

namespace store

open graph

/-- Modelled from the spec: the declaration of `graph.Def` is not part of the
sources at hand.  A def is keyed by `(Repo, CommitID, UnitType, Unit, Path)` and
carries a file, a byte range, a kind, a visibility flag and free-form
metadata. -/
structure Def where
  Repo : String
  CommitID : String
  UnitType : String
  Unit : String
  Path : String
  Kind : String
  File : String
  DefStart : Int
  DefEnd : Int
  Exported : Bool
  Data : String
deriving DecidableEq, Repr

/-- Modelled from the spec: the declaration of `graph.Doc` is not part of the
sources at hand.  A doc is a documentation blob keyed by the def key, with a
MIME type and raw bytes. -/
structure Doc where
  Repo : String
  CommitID : String
  UnitType : String
  Unit : String
  Path : String
  Format : String
  Data : String
deriving DecidableEq, Repr

/-- Modelled from the spec: the declaration of `graph.Ann` is not part of the
sources at hand.  An ann is a file-range annotation keyed by
`(File, Start, End)`; `cleanForImport` shows it also has the four scope
fields. -/
structure Ann where
  Repo : String
  CommitID : String
  UnitType : String
  Unit : String
  File : String
  Start : Int
  End : Int
  Kind : String
  Data : String
deriving DecidableEq, Repr

/-- The bundle `graph.Output`: the defs, refs, docs and anns of one unit. -/
structure Output where
  Defs : List Def
  Refs : List Ref
  Docs : List Doc
  Anns : List Ann
deriving DecidableEq, Repr

/-- Body of the first loop of `cleanForImport`, for one def. -/
def cleanDef (d : Def) : Def :=
  { d with Unit := "", UnitType := "", Repo := "", CommitID := "" }

/-- Body of the second loop of `cleanForImport`, for one ref: the four scope
fields are blanked, then each of `DefRepo`, `DefUnitType`, `DefUnit` is blanked
when the matching argument is non-empty and equal to it. -/
def cleanRef (repo unitType unit : String) (ref : Ref) : Ref :=
  let ref := { ref with Unit := "", UnitType := "", Repo := "", CommitID := "" }
  let ref := if repo ≠ "" ∧ ref.DefRepo = repo then { ref with DefRepo := "" } else ref
  let ref :=
    if unitType ≠ "" ∧ ref.DefUnitType = unitType then { ref with DefUnitType := "" } else ref
  if unit ≠ "" ∧ ref.DefUnit = unit then { ref with DefUnit := "" } else ref

/-- Body of the third loop of `cleanForImport`, for one doc. -/
def cleanDoc (d : Doc) : Doc :=
  { d with Unit := "", UnitType := "", Repo := "", CommitID := "" }

/-- Body of the fourth loop of `cleanForImport`, for one ann. -/
def cleanAnn (a : Ann) : Ann :=
  { a with Unit := "", UnitType := "", Repo := "", CommitID := "" }

/-- The function `cleanForImport`: it updates the bundle in place, here it
returns the updated bundle. -/
def cleanForImport (data : Output) (repo unitType unit : String) : Output :=
  { Defs := data.Defs.map cleanDef
    Refs := data.Refs.map (cleanRef repo unitType unit)
    Docs := data.Docs.map cleanDoc
    Anns := data.Anns.map cleanAnn }

/-- The key of the map `openUnitStores` returns; the code reads its fields
`Type` and `Name` (named `Typ` here, `Type` being reserved). -/
structure UnitID where
  Typ : String
  Name : String
deriving DecidableEq, Repr

/-- An error value, identified by its message. -/
abbrev Err := String

/-- The dynamic type and value of a `RefFilter`.  The type switch of
`unitStores.Refs` tells three cases apart: a `*absRefFilterFunc`, a
`*byRefDefFilter`, and any other type, of which only the name and whether it
implements `impliedUnitSetter` matter.  `V` is the type of filter contents
(the struct declarations are not in the sources at hand). -/
inductive RefFilter (V : Type) where
  | absRefFilterFunc (v : V)
  | byRefDefFilter (v : V)
  | other (typeName : String) (impliedUnitSetter : Bool) (v : V)
deriving DecidableEq, Repr

/-- An element of `fCopy`: either a pointer to a newly allocated copy of a
filter (`newFilter := *filter; fCopy[i] = &newFilter`) or the caller's own
filter value (`fCopy[i] = filter`). -/
inductive CopiedFilter (V : Type) where
  | fresh (contents : RefFilter V)
  | same (filter : RefFilter V)
deriving DecidableEq, Repr

/-- The filter an element of `fCopy` denotes, the allocation forgotten. -/
def CopiedFilter.filter {V : Type} : CopiedFilter V → RefFilter V
  | .fresh f => f
  | .same f => f

/-- One iteration of the copying loop of `unitStores.Refs`. -/
def copyFilter {V : Type} : RefFilter V → Except Err (CopiedFilter V)
  | .absRefFilterFunc v => .ok (.fresh (.absRefFilterFunc v))
  | .byRefDefFilter v => .ok (.fresh (.byRefDefFilter v))
  | .other typeName true _ =>
      .error ("cannot shallow-copy unrecognized filter type " ++ typeName)
  | .other typeName false v => .ok (.same (.other typeName false v))

/-- The copying loop of `unitStores.Refs`: it returns at the first filter it
cannot copy. -/
def copyFilters {V : Type} : List (RefFilter V) → Except Err (List (CopiedFilter V))
  | [] => .ok []
  | filter :: rest =>
      match copyFilter filter with
      | .error e => .error e
      | .ok c =>
          match copyFilters rest with
          | .error e => .error e
          | .ok cs => .ok (c :: cs)

/-- The address of a record.  The unit stores hand out pointers to records
(`[]*graph.Def`, `[]*graph.Ref`); the records themselves are held in a memory,
a map from addresses to records. -/
abbrev Ptr := Nat

/-- An assignment through a pointer: the memory in which the record at `p` is
`v` and the other records are as in `mem`. -/
def writeAt {R : Type} (mem : Ptr → R) (p : Ptr) (v : R) : Ptr → R :=
  fun q => if q = p then v else mem q

/-- A loop `for _, x := range xs` whose body assigns to fields of `x`: the
record behind each pointer of `xs` is updated in turn. -/
def forEach {R : Type} (body : R → R) (xs : List Ptr) (mem : Ptr → R) : Ptr → R :=
  xs.foldl (fun m p => writeAt m p (body (m p))) mem

/-- A `UnitStore`: its two methods return a slice of pointers to records and
an error (`none` is `nil`).  `DF` is the type of def filters. -/
structure UnitStore (DF V : Type) where
  Defs : List DF → List Ptr × Option Err
  Refs : List (RefFilter V) → List Ptr × Option Err

/-- The helpers of the store package that `unitStores.Defs` and
`unitStores.Refs` call and whose code is not in the sources at hand; they are
taken as parameters. -/
structure Helpers (DF V : Type) where
  isStoreNotExist : Err → Bool
  defFiltersForUnit : UnitID → List DF → List DF
  refFiltersForUnit : UnitID → List (RefFilter V) → List (RefFilter V)
  setImpliedUnit : List (RefFilter V) → UnitID → List (RefFilter V)

/-- The body of the loop over the defs a unit store returned: the assignments
to one def. -/
def populateDef (u : UnitID) (d : Def) : Def :=
  { d with UnitType := u.Typ, Unit := u.Name }

/-- The body of the loop over the refs a unit store returned: the assignments
to one ref. -/
def populateRef (u : UnitID) (ref : Ref) : Ref :=
  let ref := { ref with UnitType := u.Typ, Unit := u.Name }
  let ref := if ref.DefUnitType = "" then { ref with DefUnitType := u.Typ } else ref
  if ref.DefUnit = "" then { ref with DefUnit := u.Name } else ref

/-- The function handed to `par.Do` in `unitStores.Defs`, run on the memory
`mem`: the error it returns, or the pointers it appends to `allDefs` together
with the memory after its loop has written the unit into the defs behind
them. -/
def defsWorker {DF V : Type} (h : Helpers DF V) (fs : List DF) (u : UnitID)
    (us : UnitStore DF V) (mem : Ptr → Def) : Except Err (List Ptr × (Ptr → Def)) :=
  match us.Defs (h.defFiltersForUnit u fs) with
  | (defs, some err) =>
      if !h.isStoreNotExist err then .error err
      else .ok (defs, forEach (populateDef u) defs mem)
  | (defs, none) => .ok (defs, forEach (populateDef u) defs mem)

/-- The function handed to `par.Do` in `unitStores.Refs`, run on the memory
`mem`: the error it returns, or the pointers it appends to `allRefs` together
with the memory after its loop has written the unit into the refs behind
them. -/
def refsWorker {DF V : Type} (h : Helpers DF V) (f : List (RefFilter V)) (u : UnitID)
    (us : UnitStore DF V) (mem : Ptr → Ref) : Except Err (List Ptr × (Ptr → Ref)) :=
  match copyFilters f with
  | .error e => .error e
  | .ok fCopy =>
      let fCopy := h.refFiltersForUnit u (fCopy.map CopiedFilter.filter)
      let fCopy := h.setImpliedUnit fCopy u
      match us.Refs fCopy with
      | (refs, some err) =>
          if !h.isStoreNotExist err then .error err
          else .ok (refs, forEach (populateRef u) refs mem)
      | (refs, none) => .ok (refs, forEach (populateRef u) refs mem)

/-- What a fan-out leaves behind: the accumulator (`allDefs`, `allRefs`), the
errors the workers returned, and the memory. -/
structure Run (R : Type) where
  all : List Ptr
  errs : List Err
  mem : Ptr → R

/-- The `parallel.Run` fan-out over the opened units.  `parallel.Run` (package
`rog-go/parallel`) runs every function handed to `Do` to completion, whatever
the others return, and collects the errors.  The list `uss` gives the units in
the order in which their workers run (any order can occur; workers that write
to the same record are taken one after the other); a unit whose store is `nil`
is skipped.  A worker that fails has written nothing. -/
def fanOut {S R : Type}
    (worker : UnitID → S → (Ptr → R) → Except Err (List Ptr × (Ptr → R))) :
    List (UnitID × Option S) → (Ptr → R) → Run R
  | [], mem => { all := [], errs := [], mem := mem }
  | (_, none) :: rest, mem => fanOut worker rest mem
  | (u, some us) :: rest, mem =>
      match worker u us mem with
      | .ok (records, mem') =>
          { all := records ++ (fanOut worker rest mem').all
            errs := (fanOut worker rest mem').errs
            mem := (fanOut worker rest mem').mem }
      | .error e =>
          { all := (fanOut worker rest mem).all
            errs := e :: (fanOut worker rest mem).errs
            mem := (fanOut worker rest mem).mem }

/-- The error a query returns: the error of `openUnitStores`, or the
`parallel.Errors` value holding every error of the workers. -/
inductive QueryErr where
  | openFailed (e : Err)
  | workers (errs : List Err)
deriving DecidableEq, Repr

/-- The method `Run.Wait`: `nil` when no worker failed, else all the errors. -/
def parWait (errs : List Err) : Option QueryErr :=
  if errs.isEmpty then none else some (.workers errs)

/-- What `unitStores.Defs` or `unitStores.Refs` returns, with the memory the
returned pointers point into: the slice of pointers, the error, and the memory
as the method leaves it. -/
structure QueryResult (R : Type) where
  ptrs : List Ptr
  err : Option QueryErr
  mem : Ptr → R

/-- The records the caller reads through the returned pointers. -/
def QueryResult.values {R : Type} (r : QueryResult R) : List R := r.ptrs.map r.mem

/-- The method `unitStores.Defs`; `opened` is what `openUnitStores` returned
and `mem` holds the defs the unit stores point to. -/
def unitStores.Defs {DF V : Type} (h : Helpers DF V)
    (opened : Except Err (List (UnitID × Option (UnitStore DF V)))) (fs : List DF)
    (mem : Ptr → Def) : QueryResult Def :=
  match opened with
  | .error err => { ptrs := [], err := some (.openFailed err), mem := mem }
  | .ok uss =>
      let run := fanOut (defsWorker h fs) uss mem
      { ptrs := run.all, err := parWait run.errs, mem := run.mem }

/-- The method `unitStores.Refs`; `opened` is what `openUnitStores` returned
and `mem` holds the refs the unit stores point to.  The process-wide counter
`c_unitStores_Refs_last_numUnitsQueried`, which the method resets and the
workers increment, is not part of what the method returns and is left out. -/
def unitStores.Refs {DF V : Type} (h : Helpers DF V)
    (opened : Except Err (List (UnitID × Option (UnitStore DF V)))) (f : List (RefFilter V))
    (mem : Ptr → Ref) : QueryResult Ref :=
  match opened with
  | .error err => { ptrs := [], err := some (.openFailed err), mem := mem }
  | .ok uss =>
      let run := fanOut (refsWorker h f) uss mem
      { ptrs := run.all, err := parWait run.errs, mem := run.mem }

/-- The filter list the worker of unit `u` in `unitStores.Refs` hands to the
unit store once the copying loop has succeeded on `f`. -/
def refsQueryFilters {DF V : Type} (h : Helpers DF V) (f : List (RefFilter V)) (u : UnitID) :
    List (RefFilter V) :=
  h.setImpliedUnit (h.refFiltersForUnit u f) u

/-- A filter the copying loop refuses: it implements `impliedUnitSetter` and is
neither a `*absRefFilterFunc` nor a `*byRefDefFilter`. -/
def RefFilter.unrecognized {V : Type} : RefFilter V → Bool
  | .other _ true _ => true
  | _ => false

/-- A filter of one of the two kinds the copying loop clones. -/
def RefFilter.cloneable {V : Type} : RefFilter V → Bool
  | .absRefFilterFunc _ => true
  | .byRefDefFilter _ => true
  | .other _ _ _ => false

/-- The error the worker of `unitStores.Defs` returns, or the pointers it
appends; neither depends on the memory. -/
def defsAppended {DF V : Type} (h : Helpers DF V) (fs : List DF) (u : UnitID)
    (us : UnitStore DF V) : Except Err (List Ptr) :=
  match us.Defs (h.defFiltersForUnit u fs) with
  | (defs, some err) => if !h.isStoreNotExist err then .error err else .ok defs
  | (defs, none) => .ok defs

/-- The error the worker of `unitStores.Refs` returns, or the pointers it
appends; neither depends on the memory. -/
def refsAppended {DF V : Type} (h : Helpers DF V) (f : List (RefFilter V)) (u : UnitID)
    (us : UnitStore DF V) : Except Err (List Ptr) :=
  match copyFilters f with
  | .error e => .error e
  | .ok _ =>
      match us.Refs (refsQueryFilters h f u) with
      | (refs, some err) => if !h.isStoreNotExist err then .error err else .ok refs
      | (refs, none) => .ok refs

/-- A worker in two steps: it fails or fixes the pointers it appends (`pre`),
and in the second case runs its loop with body `body u` over them. -/
def runWorker {S R : Type} (pre : UnitID → S → Except Err (List Ptr)) (body : UnitID → R → R)
    (u : UnitID) (us : S) (mem : Ptr → R) : Except Err (List Ptr × (Ptr → R)) :=
  match pre u us with
  | .ok ptrs => .ok (ptrs, forEach (body u) ptrs mem)
  | .error e => .error e

/-- The pointers the worker of one opened unit appends to the accumulator, and
so the records its loop writes to: none for a `nil` store or a failed worker,
those its store returned otherwise. -/
def contribution {S : Type} (pre : UnitID → S → Except Err (List Ptr))
    (q : UnitID × Option S) : List Ptr :=
  match q.2 with
  | none => []
  | some us =>
      match pre q.1 us with
      | .ok ptrs => ptrs
      | .error _ => []

/-- The error the worker of one opened unit returns, if any. -/
def workerError {S : Type} (pre : UnitID → S → Except Err (List Ptr))
    (q : UnitID × Option S) : List Err :=
  match q.2 with
  | none => []
  | some us =>
      match pre q.1 us with
      | .ok _ => []
      | .error e => [e]

/-- The defs the worker of an opened unit writes to in `unitStores.Defs`. -/
def defsWritten {DF V : Type} (h : Helpers DF V) (fs : List DF)
    (q : UnitID × Option (UnitStore DF V)) : List Ptr :=
  contribution (defsAppended h fs) q

/-- The refs the worker of an opened unit writes to in `unitStores.Refs`. -/
def refsWritten {DF V : Type} (h : Helpers DF V) (f : List (RefFilter V))
    (q : UnitID × Option (UnitStore DF V)) : List Ptr :=
  contribution (refsAppended h f) q

/-- No def is written to by the workers of two different units: the unit
stores of different units hand out different records. -/
def defsUnshared {DF V : Type} (h : Helpers DF V) (fs : List DF)
    (uss : List (UnitID × Option (UnitStore DF V))) : Prop :=
  ∀ q ∈ uss, ∀ q' ∈ uss, ∀ p, p ∈ defsWritten h fs q → p ∈ defsWritten h fs q' → q.1 = q'.1

/-- No ref is written to by the workers of two different units. -/
def refsUnshared {DF V : Type} (h : Helpers DF V) (f : List (RefFilter V))
    (uss : List (UnitID × Option (UnitStore DF V))) : Prop :=
  ∀ q ∈ uss, ∀ q' ∈ uss, ∀ p, p ∈ refsWritten h f q → p ∈ refsWritten h f q' → q.1 = q'.1

/-- The pointers a unit contributes to `unitStores.Defs` when its store
succeeds: those the store returns; none for a `nil` store or a store that
returns an error. -/
def succeededDefs {DF V : Type} (h : Helpers DF V) (fs : List DF)
    (p : UnitID × Option (UnitStore DF V)) : List Ptr :=
  match p.2 with
  | none => []
  | some us =>
      match us.Defs (h.defFiltersForUnit p.1 fs) with
      | (defs, none) => defs
      | (_, some _) => []

/-- The pointers a unit contributes to `unitStores.Refs` when its store
succeeds: those the store returns; none for a `nil` store or a store that
returns an error. -/
def succeededRefs {DF V : Type} (h : Helpers DF V) (f : List (RefFilter V))
    (p : UnitID × Option (UnitStore DF V)) : List Ptr :=
  match p.2 with
  | none => []
  | some us =>
      match us.Refs (refsQueryFilters h f p.1) with
      | (refs, none) => refs
      | (_, some _) => []

/-- A def of unit `u1` of repo `r` at commit `c1`, with its scope set. -/
def scopedDef : Def :=
  { Repo := "r", CommitID := "c1", UnitType := "GoPackage", Unit := "u1", Path := "P",
    Kind := "func", File := "a.go", DefStart := 10, DefEnd := 14, Exported := true, Data := "" }

/-- A ref of unit `u1` of repo `r` at commit `c1` to the def `Y` of unit `u2`
of the same repo, with its scope set. -/
def scopedRef : Ref :=
  { DefRepo := "r", DefUnitType := "GoPackage", DefUnit := "u2", DefPath := "Y", Def := false,
    Repo := "r", CommitID := "c1", UnitType := "GoPackage", Unit := "u1", File := "a.go",
    Start := 20, End := 24 }

/-- A doc of the def `P`, with its scope set. -/
def scopedDoc : Doc :=
  { Repo := "r", CommitID := "c1", UnitType := "GoPackage", Unit := "u1", Path := "P",
    Format := "text/plain", Data := "P does things." }

/-- An ann on `a.go`, with its scope set. -/
def scopedAnn : Ann :=
  { Repo := "r", CommitID := "c1", UnitType := "GoPackage", Unit := "u1", File := "a.go",
    Start := 10, End := 14, Kind := "link", Data := "" }

/-- A bundle of unit `u1` as an analyzer emits it. -/
def sampleBundle : Output :=
  { Defs := [scopedDef], Refs := [scopedRef], Docs := [scopedDoc], Anns := [scopedAnn] }

/-- A unit of type `GoPackage` named `u1`. -/
def unitU1 : UnitID := { Typ := "GoPackage", Name := "u1" }

/-- A unit of type `GoPackage` named `u2`. -/
def unitU2 : UnitID := { Typ := "GoPackage", Name := "u2" }

/-- A unit of type `GoPackage` named `u3`. -/
def unitU3 : UnitID := { Typ := "GoPackage", Name := "u3" }

/-- A stored def with path `P` and blank scope. -/
def storedDef : Def :=
  { Repo := "", CommitID := "", UnitType := "", Unit := "", Path := "P", Kind := "func",
    File := "a.go", DefStart := 10, DefEnd := 14, Exported := true, Data := "" }

/-- A stored ref to the def `Y` of the same unit, with blank scope. -/
def storedRef : Ref :=
  { DefRepo := "", DefUnitType := "", DefUnit := "", DefPath := "Y", Def := false, Repo := "",
    CommitID := "", UnitType := "", Unit := "", File := "a.go", Start := 20, End := 24 }

/-- A memory in which every address holds the stored def. -/
def defMemory : Ptr → Def := fun _ => storedDef

/-- A memory in which every address holds the stored ref. -/
def refMemory : Ptr → Ref := fun _ => storedRef

/-- Helpers that treat the error `not exist` as the only NotExist error and
leave filter lists as they are. -/
def plainHelpers : Helpers Unit Unit :=
  { isStoreNotExist := fun e => e == "not exist"
    defFiltersForUnit := fun _ fs => fs
    refFiltersForUnit := fun _ fs => fs
    setImpliedUnit := fun fs _ => fs }

/-- A unit store that returns the def and the ref at address 0. -/
def goodStore : UnitStore Unit Unit :=
  { Defs := fun _ => ([0], none)
    Refs := fun _ => ([0], none) }

/-- A unit store that returns the def and the ref at address 1. -/
def otherStore : UnitStore Unit Unit :=
  { Defs := fun _ => ([1], none)
    Refs := fun _ => ([1], none) }

/-- A unit store whose directory is missing. -/
def missingStore : UnitStore Unit Unit :=
  { Defs := fun _ => ([], some "not exist")
    Refs := fun _ => ([], some "not exist") }

/-- A unit store whose data files cannot be decoded. -/
def corruptStore : UnitStore Unit Unit :=
  { Defs := fun _ => ([], some "corrupt")
    Refs := fun _ => ([], some "corrupt") }

/-- A filter of a type unknown to the store that implements
`impliedUnitSetter`. -/
def strangeFilter : RefFilter Unit := .other "*store.strangeFilter" true ()

end store

end Srclib


namespace Srclib

open graph store

/-! ## The order on byte sequences and the decimal rendering -/

theorem bytesLess_irrefl (x : List Char) : ¬ bytesLess x x := by
  induction x with
  | nil => simp [bytesLess]
  | cons a as ih => simp [bytesLess, ih]

theorem bytesLess_asymm (x y : List Char) : bytesLess x y → ¬ bytesLess y x := by
  induction x generalizing y with
  | nil => cases y <;> simp [bytesLess]
  | cons a as ih =>
    cases y with
    | nil => simp [bytesLess]
    | cons b bs =>
      simp only [bytesLess]
      rintro (h | ⟨rfl, h⟩) (h' | ⟨h', h''⟩)
      · exact lt_asymm h h'
      · subst h'; exact lt_irrefl _ h
      · exact lt_irrefl _ h'
      · exact ih bs h h''

theorem bytesLess_trichotomy (x y : List Char) : bytesLess x y ∨ x = y ∨ bytesLess y x := by
  induction x generalizing y with
  | nil => cases y <;> simp [bytesLess]
  | cons a as ih =>
    cases y with
    | nil => simp [bytesLess]
    | cons b bs =>
      simp only [bytesLess, List.cons.injEq]
      rcases lt_trichotomy a b with h | h | h
      · exact Or.inl (Or.inl h)
      · subst h
        rcases ih bs with h1 | h1 | h1
        · exact Or.inl (Or.inr ⟨rfl, h1⟩)
        · exact Or.inr (Or.inl ⟨rfl, h1⟩)
        · exact Or.inr (Or.inr (Or.inr ⟨rfl, h1⟩))
      · exact Or.inr (Or.inr (Or.inl h))

theorem bytesLess_append_of_length_eq (x x' y y' : List Char) (hlen : x.length = x'.length) :
    bytesLess (x ++ y) (x' ++ y') ↔ bytesLess x x' ∨ (x = x' ∧ bytesLess y y') := by
  induction x generalizing x' with
  | nil =>
    cases x' with
    | nil => simp [bytesLess]
    | cons b bs => simp at hlen
  | cons a as ih =>
    cases x' with
    | nil => simp at hlen
    | cons b bs =>
      have hl : as.length = bs.length := by simpa using hlen
      have e1 : bytesLess ((a :: as) ++ y) ((b :: bs) ++ y') ↔
          (a < b ∨ (a = b ∧ bytesLess (as ++ y) (bs ++ y'))) := Iff.rfl
      have e2 : bytesLess (a :: as) (b :: bs) ↔ (a < b ∨ (a = b ∧ bytesLess as bs)) := Iff.rfl
      rw [e1, e2, ih bs hl, List.cons.injEq]
      constructor
      · rintro (h | ⟨h, h1 | ⟨h1, h2⟩⟩)
        · exact Or.inl (Or.inl h)
        · exact Or.inl (Or.inr ⟨h, h1⟩)
        · exact Or.inr ⟨⟨h, h1⟩, h2⟩
      · rintro ((h | ⟨h, h1⟩) | ⟨⟨h, h1⟩, h2⟩)
        · exact Or.inl h
        · exact Or.inr ⟨h, Or.inl h1⟩
        · exact Or.inr ⟨h, Or.inr ⟨h1, h2⟩⟩

theorem digitChar_inj : ∀ a b : Fin 10, Nat.digitChar a = Nat.digitChar b → a = b := by decide

theorem digitChar_lt : ∀ a b : Fin 10, Nat.digitChar a < Nat.digitChar b ↔ a < b := by decide

theorem digitChar_ne_minus : ∀ a : Fin 10, Nat.digitChar a ≠ '-' := by decide

theorem toDigitsCore_acc (fuel n : Nat) (ds : List Char) :
    Nat.toDigitsCore 10 fuel n ds = Nat.toDigitsCore 10 fuel n [] ++ ds := by
  induction fuel generalizing n ds with
  | zero => simp [Nat.toDigitsCore]
  | succ fuel ih =>
    simp only [Nat.toDigitsCore]
    split_ifs with h
    · simp
    · rw [ih (n / 10) (Nat.digitChar (n % 10) :: ds), ih (n / 10) [Nat.digitChar (n % 10)]]
      simp

theorem toDigitsCore_fuel (fuel fuel' n : Nat) (h : n < fuel) (h' : n < fuel') :
    Nat.toDigitsCore 10 fuel n [] = Nat.toDigitsCore 10 fuel' n [] := by
  induction fuel generalizing fuel' n with
  | zero => omega
  | succ fuel ih =>
    cases fuel' with
    | zero => omega
    | succ fuel' =>
      simp only [Nat.toDigitsCore]
      split_ifs with h0
      · rfl
      · rw [toDigitsCore_acc fuel, toDigitsCore_acc fuel']
        have hlt : n / 10 < n := Nat.div_lt_self (by omega) (by decide)
        rw [ih fuel' (n / 10) (by omega) (by omega)]

theorem toDigits_small (n : Nat) (h : n < 10) : Nat.toDigits 10 n = [Nat.digitChar n] := by
  have h0 : n / 10 = 0 := by omega
  have h1 : n % 10 = n := by omega
  simp [Nat.toDigits, Nat.toDigitsCore, h0, h1]

theorem toDigits_large (n : Nat) (h : 10 ≤ n) :
    Nat.toDigits 10 n = Nat.toDigits 10 (n / 10) ++ [Nat.digitChar (n % 10)] := by
  have h0 : n / 10 ≠ 0 := by omega
  have hlt : n / 10 < n := Nat.div_lt_self (by omega) (by decide)
  unfold Nat.toDigits
  have e : Nat.toDigitsCore 10 (n + 1) n [] =
      Nat.toDigitsCore 10 n (n / 10) [Nat.digitChar (n % 10)] := by
    simp only [Nat.toDigitsCore, h0, if_false]
  rw [e, toDigitsCore_acc, toDigitsCore_fuel n (n / 10 + 1) (n / 10) hlt (by omega)]

theorem toDigits_ne_nil (n : Nat) : Nat.toDigits 10 n ≠ [] := by
  by_cases h : n < 10
  · simp [toDigits_small n h]
  · simp [toDigits_large n (by omega)]

theorem toDigits_length_large (n : Nat) (h : 10 ≤ n) : 2 ≤ (Nat.toDigits 10 n).length := by
  rw [toDigits_large n h]
  have := List.length_pos.2 (toDigits_ne_nil (n / 10))
  simp
  omega

theorem toDigits_ne_minus (n : Nat) : ∀ c ∈ Nat.toDigits 10 n, c ≠ '-' := by
  induction n using Nat.strong_induction_on with
  | _ n ih =>
    by_cases h : n < 10
    · rw [toDigits_small n h]
      intro c hc
      simp only [List.mem_singleton] at hc
      subst hc
      exact digitChar_ne_minus ⟨n, h⟩
    · rw [toDigits_large n (by omega)]
      intro c hc
      rcases List.mem_append.1 hc with hc | hc
      · exact ih (n / 10) (Nat.div_lt_self (by omega) (by decide)) c hc
      · simp only [List.mem_singleton] at hc
        subst hc
        exact digitChar_ne_minus ⟨n % 10, Nat.mod_lt _ (by decide)⟩

theorem toDigits_injective (m n : Nat) (h : Nat.toDigits 10 m = Nat.toDigits 10 n) : m = n := by
  induction m using Nat.strong_induction_on generalizing n with
  | _ m ih =>
    by_cases hm : m < 10
    · by_cases hn : n < 10
      · rw [toDigits_small m hm, toDigits_small n hn] at h
        have := digitChar_inj ⟨m, hm⟩ ⟨n, hn⟩ (by simpa using h)
        simpa using this
      · have h2 := toDigits_length_large n (by omega)
        rw [← h, toDigits_small m hm] at h2
        simp at h2
    · by_cases hn : n < 10
      · have h2 := toDigits_length_large m (by omega)
        rw [h, toDigits_small n hn] at h2
        simp at h2
      · rw [toDigits_large m (by omega), toDigits_large n (by omega)] at h
        have hlen := congrArg List.length h
        simp only [List.length_append, List.length_singleton, Nat.add_right_cancel_iff] at hlen
        obtain ⟨h1, h2⟩ := List.append_inj h hlen
        have hq := ih (m / 10) (Nat.div_lt_self (by omega) (by decide)) (n / 10) h1
        have hr := digitChar_inj ⟨m % 10, Nat.mod_lt _ (by decide)⟩
          ⟨n % 10, Nat.mod_lt _ (by decide)⟩ (by simpa using h2)
        have hr' : m % 10 = n % 10 := by simpa using hr
        omega

theorem toDigits_less_iff (m n : Nat)
    (hlen : (Nat.toDigits 10 m).length = (Nat.toDigits 10 n).length) :
    bytesLess (Nat.toDigits 10 m) (Nat.toDigits 10 n) ↔ m < n := by
  induction m using Nat.strong_induction_on generalizing n with
  | _ m ih =>
    by_cases hm : m < 10
    · by_cases hn : n < 10
      · rw [toDigits_small m hm, toDigits_small n hn]
        have := digitChar_lt ⟨m, hm⟩ ⟨n, hn⟩
        simp only [bytesLess, and_false, or_false]
        simpa using this
      · have h2 := toDigits_length_large n (by omega)
        rw [← hlen, toDigits_small m hm] at h2
        simp at h2
    · by_cases hn : n < 10
      · have h2 := toDigits_length_large m (by omega)
        rw [hlen, toDigits_small n hn] at h2
        simp at h2
      · rw [toDigits_large m (by omega), toDigits_large n (by omega)] at hlen ⊢
        simp only [List.length_append, List.length_singleton, Nat.add_right_cancel_iff] at hlen
        rw [bytesLess_append_of_length_eq _ _ _ _ hlen,
          ih (m / 10) (Nat.div_lt_self (by omega) (by decide)) (n / 10) hlen]
        have hd := digitChar_lt ⟨m % 10, Nat.mod_lt _ (by decide)⟩
          ⟨n % 10, Nat.mod_lt _ (by decide)⟩
        have hd' : Nat.digitChar (m % 10) < Nat.digitChar (n % 10) ↔ m % 10 < n % 10 := by
          simpa using hd
        have e : bytesLess [Nat.digitChar (m % 10)] [Nat.digitChar (n % 10)] ↔
            m % 10 < n % 10 := by
          simp only [bytesLess, and_false, or_false]
          exact hd'
        rw [e]
        constructor
        · rintro (h | ⟨h, h'⟩)
          · omega
          · have := toDigits_injective _ _ h
            omega
        · intro h
          by_cases hq : m / 10 < n / 10
          · exact Or.inl hq
          · have hqe : m / 10 = n / 10 := by omega
            exact Or.inr ⟨by rw [hqe], by omega⟩

/-! ## Ref sets -/

theorem AddAndCheckUnique_of_mem (c : RefSet) (ref : Ref) (h : ref ∈ c.refs) :
    c.AddAndCheckUnique ref = (c, true) := by
  simp [RefSet.AddAndCheckUnique, h]

theorem AddAndCheckUnique_of_not_mem (c : RefSet) (ref : Ref) (h : ref ∉ c.refs) :
    c.AddAndCheckUnique ref = (⟨ref :: c.refs⟩, false) := by
  simp [RefSet.AddAndCheckUnique, h]

/-- C3, as stated, fails: two refs with the same key tuple that differ in
`Def` are both accepted by a fresh `RefSet` (the second call returns
`duplicate = false`). -/
theorem C3_same_key_not_duplicate :
    keyTuple c3RefA = keyTuple c3RefB ∧
      ((NewRefSet.AddAndCheckUnique c3RefA).1.AddAndCheckUnique c3RefB).2 = false :=
  ⟨rfl, by decide⟩

/-- C3, amended: on a fresh `RefSet`, adding `a` and then `b` reports
`duplicate = true` for `b` exactly when `a` and `b` are equal in every field
(`Def` and `CommitID` included); and on any set, a ref that is not in the set
is reported as new (`false`), is in the set afterwards and leaves the earlier
members in the set, while a ref that is in the set is reported as duplicate
and leaves the set as it was. -/
theorem C3_refset_duplicate_iff_equal :
    (∀ a b : Ref,
        ((NewRefSet.AddAndCheckUnique a).1.AddAndCheckUnique b).2 = true ↔ a = b) ∧
    (∀ (c : RefSet) (ref : Ref), ref ∉ c.refs →
        (c.AddAndCheckUnique ref).2 = false ∧
        (∀ x, x ∈ (c.AddAndCheckUnique ref).1.refs ↔ x = ref ∨ x ∈ c.refs)) ∧
    (∀ (c : RefSet) (ref : Ref), ref ∈ c.refs →
        (c.AddAndCheckUnique ref).2 = true ∧ (c.AddAndCheckUnique ref).1 = c) := by
  refine ⟨?_, ?_, ?_⟩
  · intro a b
    have ha : NewRefSet.AddAndCheckUnique a = (⟨[a]⟩, false) := by
      simp [RefSet.AddAndCheckUnique, NewRefSet]
    rw [ha]
    by_cases hab : b = a
    · subst hab
      simp [RefSet.AddAndCheckUnique]
    · have hba : ¬ a = b := fun h => hab h.symm
      simp [RefSet.AddAndCheckUnique, hab, hba]
  · intro c ref h
    rw [AddAndCheckUnique_of_not_mem c ref h]
    simp
  · intro c ref h
    rw [AddAndCheckUnique_of_mem c ref h]
    simp

/-- Concrete instance: a ref to `X` added twice, and the same ref with `Def`
set added after it. -/
theorem C3_refset_duplicate_iff_equal_witness :
    ((NewRefSet.AddAndCheckUnique c3RefA).1.AddAndCheckUnique c3RefA).2 = true ∧
    c3RefB ∉ (RefSet.mk [c3RefA]).refs ∧
    ((RefSet.mk [c3RefA]).AddAndCheckUnique c3RefB).2 = false ∧
    c3RefA ∈ (RefSet.mk [c3RefA]).refs ∧
    ((RefSet.mk [c3RefA]).AddAndCheckUnique c3RefA).2 = true :=
  ⟨(C3_refset_duplicate_iff_equal.1 c3RefA c3RefA).2 rfl,
   by decide,
   (C3_refset_duplicate_iff_equal.2.1 (RefSet.mk [c3RefA]) c3RefB (by decide)).1,
   by decide,
   (C3_refset_duplicate_iff_equal.2.2 (RefSet.mk [c3RefA]) c3RefA (by decide)).1⟩

/-! ## cleanForImport -/

theorem cleanRef_scope (repo unitType unit : String) (r : Ref) :
    (cleanRef repo unitType unit r).Repo = "" ∧
    (cleanRef repo unitType unit r).CommitID = "" ∧
    (cleanRef repo unitType unit r).UnitType = "" ∧
    (cleanRef repo unitType unit r).Unit = "" := by
  unfold cleanRef
  simp only
  split_ifs <;> simp

theorem cleanRef_DefRepo (repo unitType unit : String) (r : Ref) :
    (cleanRef repo unitType unit r).DefRepo = if r.DefRepo = repo then "" else r.DefRepo := by
  unfold cleanRef
  simp only
  by_cases h : r.DefRepo = repo
  · subst h
    by_cases h0 : r.DefRepo = ""
    · split_ifs <;> simp_all
    · split_ifs <;> simp_all
  · split_ifs <;> simp_all

theorem cleanRef_DefUnitType (repo unitType unit : String) (r : Ref) :
    (cleanRef repo unitType unit r).DefUnitType =
      if r.DefUnitType = unitType then "" else r.DefUnitType := by
  unfold cleanRef
  simp only
  by_cases h : r.DefUnitType = unitType
  · subst h
    by_cases h0 : r.DefUnitType = ""
    · split_ifs <;> simp_all
    · split_ifs <;> simp_all
  · split_ifs <;> simp_all

theorem cleanRef_DefUnit (repo unitType unit : String) (r : Ref) :
    (cleanRef repo unitType unit r).DefUnit = if r.DefUnit = unit then "" else r.DefUnit := by
  unfold cleanRef
  simp only
  by_cases h : r.DefUnit = unit
  · subst h
    by_cases h0 : r.DefUnit = ""
    · split_ifs <;> simp_all
    · split_ifs <;> simp_all
  · split_ifs <;> simp_all

theorem cleanRef_frame (repo unitType unit : String) (r : Ref) :
    (cleanRef repo unitType unit r).DefPath = r.DefPath ∧
    (cleanRef repo unitType unit r).Def = r.Def ∧
    (cleanRef repo unitType unit r).File = r.File ∧
    (cleanRef repo unitType unit r).Start = r.Start ∧
    (cleanRef repo unitType unit r).End = r.End := by
  unfold cleanRef
  simp only
  split_ifs <;> simp

theorem cleanRef_idempotent (repo unitType unit : String) (r : Ref) :
    cleanRef repo unitType unit (cleanRef repo unitType unit r) = cleanRef repo unitType unit r := by
  obtain ⟨s1, s2, s3, s4⟩ := cleanRef_scope repo unitType unit r
  obtain ⟨f1, f2, f3, f4, f5⟩ := cleanRef_frame repo unitType unit r
  have d1 := cleanRef_DefRepo repo unitType unit r
  have d2 := cleanRef_DefUnitType repo unitType unit r
  have d3 := cleanRef_DefUnit repo unitType unit r
  obtain ⟨t1, t2, t3, t4⟩ := cleanRef_scope repo unitType unit (cleanRef repo unitType unit r)
  obtain ⟨g1, g2, g3, g4, g5⟩ := cleanRef_frame repo unitType unit (cleanRef repo unitType unit r)
  have e1 := cleanRef_DefRepo repo unitType unit (cleanRef repo unitType unit r)
  have e2 := cleanRef_DefUnitType repo unitType unit (cleanRef repo unitType unit r)
  have e3 := cleanRef_DefUnit repo unitType unit (cleanRef repo unitType unit r)
  generalize cleanRef repo unitType unit (cleanRef repo unitType unit r) = x at *
  generalize cleanRef repo unitType unit r = y at *
  cases x
  cases y
  simp only at *
  simp only [Ref.mk.injEq]
  refine ⟨?_, ?_, ?_, g1, g2, t1.trans s1.symm, t2.trans s2.symm, t3.trans s3.symm,
    t4.trans s4.symm, g3, g4, g5⟩
  · rw [e1]
    split_ifs with h
    · rw [d1] at h ⊢
      split_ifs at h ⊢ with h'
      · rfl
      · exact absurd h h'
    · rfl
  · rw [e2]
    split_ifs with h
    · rw [d2] at h ⊢
      split_ifs at h ⊢ with h'
      · rfl
      · exact absurd h h'
    · rfl
  · rw [e3]
    split_ifs with h
    · rw [d3] at h ⊢
      split_ifs at h ⊢ with h'
      · rfl
      · exact absurd h h'
    · rfl

/-- C4: after `cleanForImport`, whatever the arguments `repo`, `unitType` and
`unit` are, every def, ref, doc and ann of the bundle has `Repo`, `CommitID`,
`UnitType` and `Unit` equal to the empty string. -/
theorem C4_cleanForImport_blanks_scope (data : Output) (repo unitType unit : String) :
    (∀ d ∈ (cleanForImport data repo unitType unit).Defs,
        d.Repo = "" ∧ d.CommitID = "" ∧ d.UnitType = "" ∧ d.Unit = "") ∧
    (∀ r ∈ (cleanForImport data repo unitType unit).Refs,
        r.Repo = "" ∧ r.CommitID = "" ∧ r.UnitType = "" ∧ r.Unit = "") ∧
    (∀ d ∈ (cleanForImport data repo unitType unit).Docs,
        d.Repo = "" ∧ d.CommitID = "" ∧ d.UnitType = "" ∧ d.Unit = "") ∧
    (∀ a ∈ (cleanForImport data repo unitType unit).Anns,
        a.Repo = "" ∧ a.CommitID = "" ∧ a.UnitType = "" ∧ a.Unit = "") := by
  refine ⟨?_, ?_, ?_, ?_⟩
  · intro d hd
    simp only [cleanForImport, List.mem_map] at hd
    obtain ⟨d0, _, rfl⟩ := hd
    simp [cleanDef]
  · intro r hr
    simp only [cleanForImport, List.mem_map] at hr
    obtain ⟨r0, _, rfl⟩ := hr
    exact cleanRef_scope repo unitType unit r0
  · intro d hd
    simp only [cleanForImport, List.mem_map] at hd
    obtain ⟨d0, _, rfl⟩ := hd
    simp [cleanDoc]
  · intro a ha
    simp only [cleanForImport, List.mem_map] at ha
    obtain ⟨a0, _, rfl⟩ := ha
    simp [cleanAnn]

/-- Concrete instance: the def and the ref of the sample bundle are blanked
when it is cleaned for unit `u1` of repo `r`. -/
theorem C4_cleanForImport_blanks_scope_witness :
    cleanDef scopedDef ∈ (cleanForImport sampleBundle "r" "GoPackage" "u1").Defs ∧
    (cleanDef scopedDef).Repo = "" ∧
    cleanRef "r" "GoPackage" "u1" scopedRef ∈
      (cleanForImport sampleBundle "r" "GoPackage" "u1").Refs ∧
    (cleanRef "r" "GoPackage" "u1" scopedRef).Unit = "" :=
  ⟨by decide,
   ((C4_cleanForImport_blanks_scope sampleBundle "r" "GoPackage" "u1").1
      (cleanDef scopedDef) (by decide)).1,
   by decide,
   ((C4_cleanForImport_blanks_scope sampleBundle "r" "GoPackage" "u1").2.1
      (cleanRef "r" "GoPackage" "u1" scopedRef) (by decide)).2.2.2⟩

/-- C5: `cleanForImport` leaves the number of defs, refs, docs and anns as it
was, and the ref at each position of the result comes from the ref `r` at the
same position of the input with `DefRepo` empty if `r.DefRepo = repo` and
unchanged otherwise, `DefUnitType` empty if `r.DefUnitType = unitType` and
unchanged otherwise, `DefUnit` empty if `r.DefUnit = unit` and unchanged
otherwise, and `DefPath`, `Def`, `File`, `Start`, `End` unchanged; the def, doc
and ann at each position keep the fields that are not scope fields. -/
theorem C5_cleanForImport_referent_scope (data : Output) (repo unitType unit : String) :
    (cleanForImport data repo unitType unit).Defs.length = data.Defs.length ∧
    (cleanForImport data repo unitType unit).Refs.length = data.Refs.length ∧
    (cleanForImport data repo unitType unit).Docs.length = data.Docs.length ∧
    (cleanForImport data repo unitType unit).Anns.length = data.Anns.length ∧
    (∀ (i : Nat) (r : Ref), data.Refs[i]? = some r →
      ∃ r', (cleanForImport data repo unitType unit).Refs[i]? = some r' ∧
        r'.DefRepo = (if r.DefRepo = repo then "" else r.DefRepo) ∧
        r'.DefUnitType = (if r.DefUnitType = unitType then "" else r.DefUnitType) ∧
        r'.DefUnit = (if r.DefUnit = unit then "" else r.DefUnit) ∧
        r'.DefPath = r.DefPath ∧ r'.Def = r.Def ∧ r'.File = r.File ∧
        r'.Start = r.Start ∧ r'.End = r.End) ∧
    (∀ (i : Nat) (d : Def), data.Defs[i]? = some d →
      ∃ d', (cleanForImport data repo unitType unit).Defs[i]? = some d' ∧
        d'.Path = d.Path ∧ d'.Kind = d.Kind ∧ d'.File = d.File ∧
        d'.DefStart = d.DefStart ∧ d'.DefEnd = d.DefEnd ∧ d'.Exported = d.Exported ∧
        d'.Data = d.Data) ∧
    (∀ (i : Nat) (d : Doc), data.Docs[i]? = some d →
      ∃ d', (cleanForImport data repo unitType unit).Docs[i]? = some d' ∧
        d'.Path = d.Path ∧ d'.Format = d.Format ∧ d'.Data = d.Data) ∧
    (∀ (i : Nat) (a : Ann), data.Anns[i]? = some a →
      ∃ a', (cleanForImport data repo unitType unit).Anns[i]? = some a' ∧
        a'.File = a.File ∧ a'.Start = a.Start ∧ a'.End = a.End ∧ a'.Kind = a.Kind ∧
        a'.Data = a.Data) := by
  refine ⟨by simp [cleanForImport], by simp [cleanForImport], by simp [cleanForImport],
    by simp [cleanForImport], ?_, ?_, ?_, ?_⟩
  · intro i r hr
    refine ⟨cleanRef repo unitType unit r, by simp [cleanForImport, hr], ?_⟩
    exact ⟨cleanRef_DefRepo repo unitType unit r, cleanRef_DefUnitType repo unitType unit r,
      cleanRef_DefUnit repo unitType unit r, cleanRef_frame repo unitType unit r⟩
  · intro i d hd
    exact ⟨cleanDef d, by simp [cleanForImport, hd], by simp [cleanDef]⟩
  · intro i d hd
    exact ⟨cleanDoc d, by simp [cleanForImport, hd], by simp [cleanDoc]⟩
  · intro i a ha
    exact ⟨cleanAnn a, by simp [cleanForImport, ha], by simp [cleanAnn]⟩

/-- Concrete instance: the ref of the sample bundle, cleaned for unit `u1` of
repo `r`, loses `DefRepo` and `DefUnitType` and keeps `DefUnit = u2`. -/
theorem C5_cleanForImport_referent_scope_witness :
    sampleBundle.Refs[0]? = some scopedRef ∧
    ∃ r', (cleanForImport sampleBundle "r" "GoPackage" "u1").Refs[0]? = some r' ∧
      r'.DefRepo = "" ∧ r'.DefUnitType = "" ∧ r'.DefUnit = "u2" ∧ r'.DefPath = "Y" :=
  ⟨rfl, by
    obtain ⟨r', h0, h1, h2, h3, h4, -⟩ :=
      (C5_cleanForImport_referent_scope sampleBundle "r" "GoPackage" "u1").2.2.2.2.1
        0 scopedRef rfl
    exact ⟨r', h0, h1, h2, h3, h4⟩⟩

/-! ## Scope population at the tree tier -/

theorem populateDef_fields (u : UnitID) (d : Def) :
    (populateDef u d).UnitType = u.Typ ∧ (populateDef u d).Unit = u.Name ∧
    (populateDef u d).Repo = d.Repo ∧ (populateDef u d).CommitID = d.CommitID ∧
    (populateDef u d).Path = d.Path ∧ (populateDef u d).Kind = d.Kind ∧
    (populateDef u d).File = d.File ∧ (populateDef u d).DefStart = d.DefStart ∧
    (populateDef u d).DefEnd = d.DefEnd ∧ (populateDef u d).Exported = d.Exported ∧
    (populateDef u d).Data = d.Data := by
  simp [populateDef]

theorem populateRef_fields (u : UnitID) (r : Ref) :
    (populateRef u r).UnitType = u.Typ ∧ (populateRef u r).Unit = u.Name ∧
    (populateRef u r).DefUnitType = (if r.DefUnitType = "" then u.Typ else r.DefUnitType) ∧
    (populateRef u r).DefUnit = (if r.DefUnit = "" then u.Name else r.DefUnit) ∧
    (populateRef u r).DefRepo = r.DefRepo ∧ (populateRef u r).DefPath = r.DefPath ∧
    (populateRef u r).Def = r.Def ∧ (populateRef u r).File = r.File ∧
    (populateRef u r).Start = r.Start ∧ (populateRef u r).End = r.End := by
  unfold populateRef
  simp only
  split_ifs <;> simp_all

theorem populateRef_repo_commit (u : UnitID) (r : Ref) :
    (populateRef u r).Repo = r.Repo ∧ (populateRef u r).CommitID = r.CommitID := by
  unfold populateRef
  simp only
  split_ifs <;> simp_all

theorem populateDef_idempotent (u : UnitID) (d : Def) :
    populateDef u (populateDef u d) = populateDef u d := by
  simp [populateDef]

theorem populateRef_idempotent (u : UnitID) (r : Ref) :
    populateRef u (populateRef u r) = populateRef u r := by
  obtain ⟨a1, a2, a3, a4, a5, a6, a7, a8, a9, a10⟩ := populateRef_fields u r
  obtain ⟨a11, a12⟩ := populateRef_repo_commit u r
  obtain ⟨b1, b2, b3, b4, b5, b6, b7, b8, b9, b10⟩ := populateRef_fields u (populateRef u r)
  obtain ⟨b11, b12⟩ := populateRef_repo_commit u (populateRef u r)
  generalize populateRef u (populateRef u r) = x at *
  generalize populateRef u r = y at *
  cases x
  cases y
  simp only at *
  simp only [Ref.mk.injEq]
  refine ⟨b5, ?_, ?_, b6, b7, b11, b12, b1.trans a1.symm, b2.trans a2.symm, b8, b9, b10⟩
  · rw [b3]
    split_ifs with hb
    · rw [a3] at hb ⊢
      split_ifs at hb ⊢ with ha
      · rfl
      · exact absurd hb ha
    · rfl
  · rw [b4]
    split_ifs with hb
    · rw [a4] at hb ⊢
      split_ifs at hb ⊢ with ha
      · rfl
      · exact absurd hb ha
    · rfl

/-! ## Writing through pointers -/

theorem forEach_nil {R : Type} (body : R → R) (mem : Ptr → R) : forEach body [] mem = mem := rfl

theorem forEach_cons {R : Type} (body : R → R) (a : Ptr) (xs : List Ptr) (mem : Ptr → R) :
    forEach body (a :: xs) mem = forEach body xs (writeAt mem a (body (mem a))) := rfl

theorem forEach_of_not_mem {R : Type} (body : R → R) (xs : List Ptr) (mem : Ptr → R) (p : Ptr)
    (hp : p ∉ xs) : forEach body xs mem p = mem p := by
  induction xs generalizing mem with
  | nil => rfl
  | cons a xs ih =>
    rw [forEach_cons, ih _ (fun k => hp (List.mem_cons_of_mem _ k))]
    have hne : p ≠ a := fun k => hp (k ▸ List.mem_cons_self _ _)
    simp [writeAt, hne]

theorem forEach_of_mem {R : Type} (body : R → R) (hidem : ∀ x, body (body x) = body x)
    (xs : List Ptr) (mem : Ptr → R) (p : Ptr) (hp : p ∈ xs) :
    forEach body xs mem p = body (mem p) := by
  induction xs generalizing mem with
  | nil => simp at hp
  | cons a xs ih =>
    rw [forEach_cons]
    by_cases hxs : p ∈ xs
    · rw [ih _ hxs]
      by_cases hpa : p = a
      · subst hpa
        simp [writeAt, hidem]
      · simp [writeAt, hpa]
    · have hpa : p = a := by
        rcases List.mem_cons.1 hp with k | k
        · exact k
        · exact absurd k hxs
      subst hpa
      rw [forEach_of_not_mem _ _ _ _ hxs]
      simp [writeAt]

/-! ## The fan-out -/

theorem fanOut_cons {S R : Type} (pre : UnitID → S → Except Err (List Ptr))
    (body : UnitID → R → R) (q : UnitID × Option S) (rest : List (UnitID × Option S))
    (mem : Ptr → R) :
    fanOut (runWorker pre body) (q :: rest) mem =
      { all := contribution pre q ++
          (fanOut (runWorker pre body) rest (forEach (body q.1) (contribution pre q) mem)).all
        errs := workerError pre q ++
          (fanOut (runWorker pre body) rest (forEach (body q.1) (contribution pre q) mem)).errs
        mem :=
          (fanOut (runWorker pre body) rest (forEach (body q.1) (contribution pre q) mem)).mem } := by
  obtain ⟨u, us⟩ := q
  cases us with
  | none => simp [fanOut, contribution, workerError, forEach_nil]
  | some us =>
    cases hw : pre u us with
    | ok ptrs => simp [fanOut, runWorker, contribution, workerError, hw]
    | error e => simp [fanOut, runWorker, contribution, workerError, hw, forEach_nil]

theorem fanOut_all {S R : Type} (pre : UnitID → S → Except Err (List Ptr))
    (body : UnitID → R → R) (uss : List (UnitID × Option S)) (mem : Ptr → R) :
    (fanOut (runWorker pre body) uss mem).all = uss.flatMap (contribution pre) := by
  induction uss generalizing mem with
  | nil => rfl
  | cons q rest ih => rw [fanOut_cons, List.flatMap_cons, ih]

theorem fanOut_errs {S R : Type} (pre : UnitID → S → Except Err (List Ptr))
    (body : UnitID → R → R) (uss : List (UnitID × Option S)) (mem : Ptr → R) :
    (fanOut (runWorker pre body) uss mem).errs = uss.flatMap (workerError pre) := by
  induction uss generalizing mem with
  | nil => rfl
  | cons q rest ih => rw [fanOut_cons, List.flatMap_cons, ih]

theorem fanOut_mem {S R : Type} (pre : UnitID → S → Except Err (List Ptr))
    (body : UnitID → R → R) (hidem : ∀ u x, body u (body u x) = body u x)
    (uss : List (UnitID × Option S)) (p : Ptr) (u : UnitID)
    (hu : ∀ q ∈ uss, p ∈ contribution pre q → q.1 = u) (mem : Ptr → R) :
    ((∃ q ∈ uss, p ∈ contribution pre q) →
      (fanOut (runWorker pre body) uss mem).mem p = body u (mem p)) ∧
    ((∀ q ∈ uss, p ∉ contribution pre q) →
      (fanOut (runWorker pre body) uss mem).mem p = mem p) := by
  induction uss generalizing mem with
  | nil =>
    refine ⟨?_, fun _ => rfl⟩
    rintro ⟨q, hq, -⟩
    simp at hq
  | cons q rest ih =>
    have hrest : ∀ q' ∈ rest, p ∈ contribution pre q' → q'.1 = u :=
      fun q' hq' => hu q' (List.mem_cons_of_mem _ hq')
    obtain ⟨ih1, ih2⟩ := ih hrest (forEach (body q.1) (contribution pre q) mem)
    rw [fanOut_cons]
    simp only
    refine ⟨?_, ?_⟩
    · intro hex
      by_cases hr : ∃ q' ∈ rest, p ∈ contribution pre q'
      · rw [ih1 hr]
        by_cases hq : p ∈ contribution pre q
        · have hqu : q.1 = u := hu q (List.mem_cons_self _ _) hq
          rw [forEach_of_mem _ (hidem q.1) _ _ _ hq, hqu, hidem]
        · rw [forEach_of_not_mem _ _ _ _ hq]
      · have hr' : ∀ q' ∈ rest, p ∉ contribution pre q' :=
          fun q' hq' hp => hr ⟨q', hq', hp⟩
        rw [ih2 hr']
        have hq : p ∈ contribution pre q := by
          obtain ⟨q', hq', hp⟩ := hex
          rcases List.mem_cons.1 hq' with k | k
          · exact k ▸ hp
          · exact absurd hp (hr' q' k)
        have hqu : q.1 = u := hu q (List.mem_cons_self _ _) hq
        rw [forEach_of_mem _ (hidem q.1) _ _ _ hq, hqu]
    · intro hno
      rw [ih2 (fun q' hq' => hno q' (List.mem_cons_of_mem _ hq')),
        forEach_of_not_mem _ _ _ _ (hno q (List.mem_cons_self _ _))]

theorem mem_contribution {S : Type} (pre : UnitID → S → Except Err (List Ptr))
    (q : UnitID × Option S) (p : Ptr) :
    p ∈ contribution pre q ↔ ∃ us ptrs, q.2 = some us ∧ pre q.1 us = .ok ptrs ∧ p ∈ ptrs := by
  obtain ⟨u, us⟩ := q
  cases us with
  | none => simp [contribution]
  | some us =>
    cases hw : pre u us with
    | ok ptrs => simp [contribution, hw]
    | error e => simp [contribution, hw]

theorem mem_flatMap_contribution {S : Type} (pre : UnitID → S → Except Err (List Ptr))
    (uss : List (UnitID × Option S)) (p : Ptr) :
    p ∈ uss.flatMap (contribution pre) ↔
      ∃ u us ptrs, (u, some us) ∈ uss ∧ pre u us = .ok ptrs ∧ p ∈ ptrs := by
  rw [List.mem_flatMap]
  constructor
  · rintro ⟨⟨u, us⟩, hq, hp⟩
    obtain ⟨us', ptrs, h1, h2, h3⟩ := (mem_contribution pre _ p).1 hp
    simp only at h1 h2
    subst h1
    exact ⟨u, us', ptrs, hq, h2, h3⟩
  · rintro ⟨u, us, ptrs, hq, hw, hp⟩
    exact ⟨(u, some us), hq, (mem_contribution pre _ p).2 ⟨us, ptrs, rfl, hw, hp⟩⟩

theorem mem_flatMap_workerError {S : Type} (pre : UnitID → S → Except Err (List Ptr))
    (uss : List (UnitID × Option S)) (e : Err) :
    e ∈ uss.flatMap (workerError pre) ↔ ∃ u us, (u, some us) ∈ uss ∧ pre u us = .error e := by
  rw [List.mem_flatMap]
  constructor
  · rintro ⟨⟨u, us⟩, hp, hx⟩
    cases us with
    | none => simp [workerError] at hx
    | some us =>
      cases hw : pre u us with
      | ok records => simp [workerError, hw] at hx
      | error e0 =>
        simp only [workerError, hw, List.mem_singleton] at hx
        subst hx
        exact ⟨u, us, hp, hw⟩
  · rintro ⟨u, us, hp, hw⟩
    exact ⟨(u, some us), hp, by simp [workerError, hw]⟩

theorem parWait_eq_none (errs : List Err) : parWait errs = none ↔ errs = [] := by
  cases errs <;> simp [parWait]

theorem parWait_of_mem (errs : List Err) (e : Err) (h : e ∈ errs) :
    parWait errs = some (.workers errs) := by
  cases errs with
  | nil => simp at h
  | cons a l => simp [parWait]

theorem copyFilters_ok_filter {V : Type} (f : List (RefFilter V)) (cs : List (CopiedFilter V))
    (h : copyFilters f = .ok cs) : cs.map CopiedFilter.filter = f := by
  induction f generalizing cs with
  | nil =>
    simp only [copyFilters, Except.ok.injEq] at h
    subst h
    rfl
  | cons a rest ih =>
    unfold copyFilters at h
    cases ha : copyFilter a with
    | error e => simp [ha] at h
    | ok c =>
      cases hr : copyFilters rest with
      | error e => simp [ha, hr] at h
      | ok cs0 =>
        simp only [ha, hr, Except.ok.injEq] at h
        subst h
        have hc : c.filter = a := by
          cases a with
          | absRefFilterFunc v =>
            simp only [copyFilter, Except.ok.injEq] at ha
            subst ha
            rfl
          | byRefDefFilter v =>
            simp only [copyFilter, Except.ok.injEq] at ha
            subst ha
            rfl
          | other ty b v =>
            cases b with
            | true => simp [copyFilter] at ha
            | false =>
              simp only [copyFilter, Except.ok.injEq] at ha
              subst ha
              rfl
        simp [hc, ih cs0 hr]

theorem copyFilters_of_recognized {V : Type} (f : List (RefFilter V))
    (hf : ∀ x ∈ f, x.unrecognized = false) :
    copyFilters f = .ok (f.map fun x => if x.cloneable then .fresh x else .same x) := by
  induction f with
  | nil => rfl
  | cons a rest ih =>
    have hrest := ih (fun x hx => hf x (List.mem_cons_of_mem a hx))
    have ha := hf a (List.mem_cons_self a rest)
    unfold copyFilters
    rw [hrest]
    cases a with
    | absRefFilterFunc v => simp [copyFilter, RefFilter.cloneable]
    | byRefDefFilter v => simp [copyFilter, RefFilter.cloneable]
    | other ty b v =>
      cases b with
      | true => simp [RefFilter.unrecognized] at ha
      | false => simp [copyFilter, RefFilter.cloneable]

theorem copyFilters_of_unrecognized {V : Type} (f : List (RefFilter V))
    (hf : ∃ x ∈ f, x.unrecognized = true) :
    ∃ ty v, RefFilter.other ty true v ∈ f ∧
      copyFilters f = .error ("cannot shallow-copy unrecognized filter type " ++ ty) := by
  induction f with
  | nil => simp at hf
  | cons a rest ih =>
    cases ha : copyFilter a with
    | error e =>
      cases a with
      | absRefFilterFunc v => simp [copyFilter] at ha
      | byRefDefFilter v => simp [copyFilter] at ha
      | other ty b v =>
        cases b with
        | false => simp [copyFilter] at ha
        | true =>
          refine ⟨ty, v, List.mem_cons_self _ _, ?_⟩
          simp [copyFilters, copyFilter]
    | ok c =>
      have hrest : ∃ x ∈ rest, x.unrecognized = true := by
        obtain ⟨x, hx, hu⟩ := hf
        rcases List.mem_cons.1 hx with rfl | hx
        · cases x with
          | absRefFilterFunc v => simp [RefFilter.unrecognized] at hu
          | byRefDefFilter v => simp [RefFilter.unrecognized] at hu
          | other ty b v =>
            cases b with
            | false => simp [RefFilter.unrecognized] at hu
            | true => simp [copyFilter] at ha
        · exact ⟨x, hx, hu⟩
      obtain ⟨ty, v, hmem, hcopy⟩ := ih hrest
      refine ⟨ty, v, List.mem_cons_of_mem _ hmem, ?_⟩
      simp [copyFilters, ha, hcopy]

theorem flatMap_eq_of_forall_mem {α β : Type} (l : List α) (g k : α → List β)
    (hgk : ∀ a ∈ l, g a = k a) : l.flatMap g = l.flatMap k := by
  induction l with
  | nil => rfl
  | cons a rest ih =>
    simp only [List.flatMap_cons]
    rw [hgk a (List.mem_cons_self _ _), ih (fun b hb => hgk b (List.mem_cons_of_mem _ hb))]

theorem flatMap_eq_nil_of_forall_mem {α β : Type} (l : List α) (g : α → List β)
    (hg : ∀ a ∈ l, g a = []) : l.flatMap g = [] := by
  induction l with
  | nil => rfl
  | cons a rest ih =>
    simp only [List.flatMap_cons]
    rw [hg a (List.mem_cons_self _ _), ih (fun b hb => hg b (List.mem_cons_of_mem _ hb))]
    rfl

theorem defsWorker_eq_runWorker {DF V : Type} (h : Helpers DF V) (fs : List DF) :
    defsWorker h fs = runWorker (defsAppended h fs) populateDef := by
  funext u us mem
  unfold defsWorker runWorker defsAppended
  rcases hq : us.Defs (h.defFiltersForUnit u fs) with ⟨defs, err⟩
  cases err with
  | none => rfl
  | some e =>
    simp only
    split_ifs <;> rfl

theorem refsWorker_eq_runWorker {DF V : Type} (h : Helpers DF V) (f : List (RefFilter V)) :
    refsWorker h f = runWorker (refsAppended h f) populateRef := by
  funext u us mem
  unfold refsWorker runWorker refsAppended
  cases hc : copyFilters f with
  | error e => rfl
  | ok cs =>
    simp only [copyFilters_ok_filter f cs hc]
    unfold refsQueryFilters
    rcases hq : us.Refs (h.setImpliedUnit (h.refFiltersForUnit u f) u) with ⟨refs, err⟩
    cases err with
    | none => rfl
    | some e =>
      simp only
      split_ifs <;> rfl

theorem defsAppended_ok {DF V : Type} (h : Helpers DF V) (fs : List DF) (u : UnitID)
    (us : UnitStore DF V) (ptrs : List Ptr) (hw : defsAppended h fs u us = .ok ptrs) :
    ptrs = (us.Defs (h.defFiltersForUnit u fs)).1 := by
  unfold defsAppended at hw
  rcases hq : us.Defs (h.defFiltersForUnit u fs) with ⟨defs, err⟩
  rw [hq] at hw
  cases err with
  | none =>
    simp only [Except.ok.injEq] at hw
    exact hw.symm
  | some e =>
    simp only at hw
    split_ifs at hw
    simp only [Except.ok.injEq] at hw
    exact hw.symm

theorem defsAppended_of_succeeds {DF V : Type} (h : Helpers DF V) (fs : List DF) (u : UnitID)
    (us : UnitStore DF V)
    (hs : ∀ e, (us.Defs (h.defFiltersForUnit u fs)).2 = some e → h.isStoreNotExist e = true) :
    defsAppended h fs u us = .ok (us.Defs (h.defFiltersForUnit u fs)).1 := by
  unfold defsAppended
  rcases hq : us.Defs (h.defFiltersForUnit u fs) with ⟨defs, err⟩
  rw [hq] at hs
  cases err with
  | none => rfl
  | some e => simp [hs e rfl]

theorem defsAppended_of_fails {DF V : Type} (h : Helpers DF V) (fs : List DF) (u : UnitID)
    (us : UnitStore DF V) (e : Err) (he : (us.Defs (h.defFiltersForUnit u fs)).2 = some e)
    (hne : h.isStoreNotExist e = false) : defsAppended h fs u us = .error e := by
  unfold defsAppended
  rcases hq : us.Defs (h.defFiltersForUnit u fs) with ⟨defs, err⟩
  rw [hq] at he
  simp only at he
  subst he
  simp [hne]

theorem defsAppended_succeeds_of_ok {DF V : Type} (h : Helpers DF V) (fs : List DF)
    (u : UnitID) (us : UnitStore DF V) (ptrs : List Ptr)
    (hw : defsAppended h fs u us = .ok ptrs) :
    ∀ e, (us.Defs (h.defFiltersForUnit u fs)).2 = some e → h.isStoreNotExist e = true := by
  intro e he
  by_contra hne
  have hfalse : h.isStoreNotExist e = false := by simpa using hne
  rw [defsAppended_of_fails h fs u us e he hfalse] at hw
  cases hw

theorem refsAppended_ok {DF V : Type} (h : Helpers DF V) (f : List (RefFilter V)) (u : UnitID)
    (us : UnitStore DF V) (ptrs : List Ptr) (hw : refsAppended h f u us = .ok ptrs) :
    ptrs = (us.Refs (refsQueryFilters h f u)).1 := by
  unfold refsAppended at hw
  cases hc : copyFilters f with
  | error e => simp [hc] at hw
  | ok cs =>
    rw [hc] at hw
    rcases hq : us.Refs (refsQueryFilters h f u) with ⟨refs, err⟩
    rw [hq] at hw
    cases err with
    | none =>
      simp only [Except.ok.injEq] at hw
      exact hw.symm
    | some e =>
      simp only at hw
      split_ifs at hw
      simp only [Except.ok.injEq] at hw
      exact hw.symm

theorem refsAppended_of_succeeds {DF V : Type} (h : Helpers DF V) (f : List (RefFilter V))
    (u : UnitID) (us : UnitStore DF V) (hf : ∀ x ∈ f, x.unrecognized = false)
    (hs : ∀ e, (us.Refs (refsQueryFilters h f u)).2 = some e → h.isStoreNotExist e = true) :
    refsAppended h f u us = .ok (us.Refs (refsQueryFilters h f u)).1 := by
  have hc := copyFilters_of_recognized f hf
  unfold refsAppended
  rw [hc]
  rcases hq : us.Refs (refsQueryFilters h f u) with ⟨refs, err⟩
  rw [hq] at hs
  cases err with
  | none => rfl
  | some e => simp [hs e rfl]

theorem refsAppended_of_fails {DF V : Type} (h : Helpers DF V) (f : List (RefFilter V))
    (u : UnitID) (us : UnitStore DF V) (hf : ∀ x ∈ f, x.unrecognized = false) (e : Err)
    (he : (us.Refs (refsQueryFilters h f u)).2 = some e) (hne : h.isStoreNotExist e = false) :
    refsAppended h f u us = .error e := by
  have hc := copyFilters_of_recognized f hf
  unfold refsAppended
  rw [hc]
  rcases hq : us.Refs (refsQueryFilters h f u) with ⟨refs, err⟩
  rw [hq] at he
  simp only at he
  subst he
  simp [hne]

theorem refsAppended_of_unrecognized {DF V : Type} (h : Helpers DF V) (f : List (RefFilter V))
    (u : UnitID) (us : UnitStore DF V) (e : Err) (hc : copyFilters f = .error e) :
    refsAppended h f u us = .error e := by
  unfold refsAppended
  rw [hc]

theorem refsAppended_recognized_of_ok {DF V : Type} (h : Helpers DF V) (f : List (RefFilter V))
    (u : UnitID) (us : UnitStore DF V) (ptrs : List Ptr)
    (hw : refsAppended h f u us = .ok ptrs) : ∀ x ∈ f, x.unrecognized = false := by
  by_contra hcon
  have hex : ∃ x ∈ f, x.unrecognized = true := by
    push_neg at hcon
    obtain ⟨x, hx, hne⟩ := hcon
    exact ⟨x, hx, by simpa using hne⟩
  obtain ⟨ty, v, -, hc⟩ := copyFilters_of_unrecognized f hex
  rw [refsAppended_of_unrecognized h f u us _ hc] at hw
  cases hw

theorem refsAppended_succeeds_of_ok {DF V : Type} (h : Helpers DF V) (f : List (RefFilter V))
    (u : UnitID) (us : UnitStore DF V) (ptrs : List Ptr)
    (hw : refsAppended h f u us = .ok ptrs) :
    ∀ e, (us.Refs (refsQueryFilters h f u)).2 = some e → h.isStoreNotExist e = true := by
  intro e he
  by_contra hne
  have hfalse : h.isStoreNotExist e = false := by simpa using hne
  rw [refsAppended_of_fails h f u us (refsAppended_recognized_of_ok h f u us ptrs hw) e he
    hfalse] at hw
  cases hw

theorem refsAppended_error_exists {DF V : Type} (h : Helpers DF V) (f : List (RefFilter V))
    (u : UnitID) (us : UnitStore DF V) (e : Err)
    (he : (us.Refs (refsQueryFilters h f u)).2 = some e) (hne : h.isStoreNotExist e = false) :
    ∃ e', refsAppended h f u us = .error e' ∧
      ((∀ x ∈ f, x.unrecognized = false) → e' = e) := by
  by_cases hf : ∀ x ∈ f, x.unrecognized = false
  · exact ⟨e, refsAppended_of_fails h f u us hf e he hne, fun _ => rfl⟩
  · have hex : ∃ x ∈ f, x.unrecognized = true := by
      push_neg at hf
      obtain ⟨x, hx, hx'⟩ := hf
      exact ⟨x, hx, by simpa using hx'⟩
    obtain ⟨ty, v, -, hc⟩ := copyFilters_of_unrecognized f hex
    exact ⟨_, refsAppended_of_unrecognized h f u us _ hc, fun hall => absurd hall hf⟩

/-! ## What the two methods return -/

theorem Defs_ptrs {DF V : Type} (h : Helpers DF V)
    (uss : List (UnitID × Option (UnitStore DF V))) (fs : List DF) (mem : Ptr → Def) :
    (unitStores.Defs h (.ok uss) fs mem).ptrs = uss.flatMap (defsWritten h fs) := by
  simp only [unitStores.Defs, defsWorker_eq_runWorker, fanOut_all]
  rfl

theorem Refs_ptrs {DF V : Type} (h : Helpers DF V)
    (uss : List (UnitID × Option (UnitStore DF V))) (f : List (RefFilter V)) (mem : Ptr → Ref) :
    (unitStores.Refs h (.ok uss) f mem).ptrs = uss.flatMap (refsWritten h f) := by
  simp only [unitStores.Refs, refsWorker_eq_runWorker, fanOut_all]
  rfl

theorem Defs_err {DF V : Type} (h : Helpers DF V)
    (uss : List (UnitID × Option (UnitStore DF V))) (fs : List DF) (mem : Ptr → Def) :
    (unitStores.Defs h (.ok uss) fs mem).err =
      parWait (uss.flatMap (workerError (defsAppended h fs))) := by
  simp only [unitStores.Defs, defsWorker_eq_runWorker, fanOut_errs]

theorem Refs_err {DF V : Type} (h : Helpers DF V)
    (uss : List (UnitID × Option (UnitStore DF V))) (f : List (RefFilter V)) (mem : Ptr → Ref) :
    (unitStores.Refs h (.ok uss) f mem).err =
      parWait (uss.flatMap (workerError (refsAppended h f))) := by
  simp only [unitStores.Refs, refsWorker_eq_runWorker, fanOut_errs]

theorem Defs_mem_of_written {DF V : Type} (h : Helpers DF V)
    (uss : List (UnitID × Option (UnitStore DF V))) (fs : List DF) (mem : Ptr → Def)
    (p : Ptr) (u : UnitID) (hu : ∀ q ∈ uss, p ∈ defsWritten h fs q → q.1 = u)
    (hp : ∃ q ∈ uss, p ∈ defsWritten h fs q) :
    (unitStores.Defs h (.ok uss) fs mem).mem p = populateDef u (mem p) := by
  simp only [unitStores.Defs, defsWorker_eq_runWorker]
  exact (fanOut_mem (defsAppended h fs) populateDef populateDef_idempotent uss p u hu mem).1 hp

theorem Refs_mem_of_written {DF V : Type} (h : Helpers DF V)
    (uss : List (UnitID × Option (UnitStore DF V))) (f : List (RefFilter V)) (mem : Ptr → Ref)
    (p : Ptr) (u : UnitID) (hu : ∀ q ∈ uss, p ∈ refsWritten h f q → q.1 = u)
    (hp : ∃ q ∈ uss, p ∈ refsWritten h f q) :
    (unitStores.Refs h (.ok uss) f mem).mem p = populateRef u (mem p) := by
  simp only [unitStores.Refs, refsWorker_eq_runWorker]
  exact (fanOut_mem (refsAppended h f) populateRef populateRef_idempotent uss p u hu mem).1 hp

theorem Defs_mem_of_unwritten {DF V : Type} (h : Helpers DF V)
    (uss : List (UnitID × Option (UnitStore DF V))) (fs : List DF) (mem : Ptr → Def)
    (p : Ptr) (hp : ∀ q ∈ uss, p ∉ defsWritten h fs q) :
    (unitStores.Defs h (.ok uss) fs mem).mem p = mem p := by
  simp only [unitStores.Defs, defsWorker_eq_runWorker]
  exact (fanOut_mem (defsAppended h fs) populateDef populateDef_idempotent uss p ⟨"", ""⟩
    (fun q hq hpq => absurd hpq (hp q hq)) mem).2 hp

theorem Refs_mem_of_unwritten {DF V : Type} (h : Helpers DF V)
    (uss : List (UnitID × Option (UnitStore DF V))) (f : List (RefFilter V)) (mem : Ptr → Ref)
    (p : Ptr) (hp : ∀ q ∈ uss, p ∉ refsWritten h f q) :
    (unitStores.Refs h (.ok uss) f mem).mem p = mem p := by
  simp only [unitStores.Refs, refsWorker_eq_runWorker]
  exact (fanOut_mem (refsAppended h f) populateRef populateRef_idempotent uss p ⟨"", ""⟩
    (fun q hq hpq => absurd hpq (hp q hq)) mem).2 hp

theorem mem_defsWritten {DF V : Type} (h : Helpers DF V) (fs : List DF) (u : UnitID)
    (us : UnitStore DF V) (p : Ptr) :
    p ∈ defsWritten h fs (u, some us) ↔
      (∀ e, (us.Defs (h.defFiltersForUnit u fs)).2 = some e → h.isStoreNotExist e = true) ∧
      p ∈ (us.Defs (h.defFiltersForUnit u fs)).1 := by
  unfold defsWritten
  rw [mem_contribution]
  constructor
  · rintro ⟨us', ptrs, h1, h2, h3⟩
    simp only [Option.some.injEq] at h1
    subst h1
    simp only at h2
    exact ⟨defsAppended_succeeds_of_ok h fs u us ptrs h2,
      defsAppended_ok h fs u us ptrs h2 ▸ h3⟩
  · rintro ⟨hs, hp⟩
    exact ⟨us, _, rfl, defsAppended_of_succeeds h fs u us hs, hp⟩

theorem mem_refsWritten {DF V : Type} (h : Helpers DF V) (f : List (RefFilter V)) (u : UnitID)
    (us : UnitStore DF V) (p : Ptr) :
    p ∈ refsWritten h f (u, some us) ↔
      (∀ x ∈ f, x.unrecognized = false) ∧
      (∀ e, (us.Refs (refsQueryFilters h f u)).2 = some e → h.isStoreNotExist e = true) ∧
      p ∈ (us.Refs (refsQueryFilters h f u)).1 := by
  unfold refsWritten
  rw [mem_contribution]
  constructor
  · rintro ⟨us', ptrs, h1, h2, h3⟩
    simp only [Option.some.injEq] at h1
    subst h1
    simp only at h2
    exact ⟨refsAppended_recognized_of_ok h f u us ptrs h2,
      refsAppended_succeeds_of_ok h f u us ptrs h2, refsAppended_ok h f u us ptrs h2 ▸ h3⟩
  · rintro ⟨hf, hs, hp⟩
    exact ⟨us, _, rfl, refsAppended_of_succeeds h f u us hf hs, hp⟩

theorem not_mem_written_nil {S : Type} (pre : UnitID → S → Except Err (List Ptr)) (u : UnitID)
    (p : Ptr) : p ∉ contribution pre (u, none) := by
  simp [contribution]

/-- C6, as stated for every unit store, fails where two units hand out the
same record: the workers write through the pointers the stores return.  With
the ref at address 0 returned by the stores of `u1` and of `u2`, and the
worker of `u1` run first, `unitStores.Refs` returns that ref twice, and the
ref reads `Unit = u2`, not `u1`, and `DefUnit = u1`, not `u2`, though its
stored `DefUnit` was blank. -/
theorem C6_shared_record_takes_other_unit :
    (goodStore.Refs (refsQueryFilters plainHelpers [] unitU1)).1 = [0] ∧
    (goodStore.Refs (refsQueryFilters plainHelpers [] unitU2)).1 = [0] ∧
    (refMemory 0).DefUnit = "" ∧
    (unitStores.Refs plainHelpers (.ok [(unitU1, some goodStore), (unitU2, some goodStore)]) []
      refMemory).ptrs = [0, 0] ∧
    (unitStores.Refs plainHelpers (.ok [(unitU1, some goodStore), (unitU2, some goodStore)]) []
      refMemory).err = none ∧
    ((unitStores.Refs plainHelpers (.ok [(unitU1, some goodStore), (unitU2, some goodStore)]) []
      refMemory).mem 0).Unit = "u2" ∧
    ((unitStores.Refs plainHelpers (.ok [(unitU1, some goodStore), (unitU2, some goodStore)]) []
      refMemory).mem 0).DefUnit = "u1" := by
  refine ⟨rfl, rfl, rfl, by decide, by decide, by decide, by decide⟩

/-- C6, amended: for every unit `u` with a non-nil unit store whose worker does
not fail, and every record that store returns to which the worker of no other
unit writes (no store of another unit hands out the same record), the record is
in the result of `unitStores.Defs` / `unitStores.Refs` and there it has
`UnitType = u.Type` and `Unit = u.Name`; for a ref, `DefUnitType` is `u.Type`
if the stored one was blank and the stored one otherwise, `DefUnit` is `u.Name`
if the stored one was blank and the stored one otherwise, and `DefRepo`,
`DefPath`, `Def`, `File`, `Start`, `End` (and `Repo`, `CommitID`) are as
stored.  The result holds no other records: each was returned by the non-nil
store of an opened unit whose worker did not fail. -/
theorem C6_scope_population_of_unshared_records {DF V : Type} (h : Helpers DF V)
    (uss : List (UnitID × Option (UnitStore DF V))) (fs : List DF) (f : List (RefFilter V))
    (defs : Ptr → Def) (refs : Ptr → Ref) :
    (∀ u us, (u, some us) ∈ uss →
      (∀ e, (us.Defs (h.defFiltersForUnit u fs)).2 = some e → h.isStoreNotExist e = true) →
      ∀ p ∈ (us.Defs (h.defFiltersForUnit u fs)).1,
        (∀ q ∈ uss, p ∈ defsWritten h fs q → q.1 = u) →
        p ∈ (unitStores.Defs h (.ok uss) fs defs).ptrs ∧
        (unitStores.Defs h (.ok uss) fs defs).mem p = populateDef u (defs p) ∧
        ((unitStores.Defs h (.ok uss) fs defs).mem p).UnitType = u.Typ ∧
        ((unitStores.Defs h (.ok uss) fs defs).mem p).Unit = u.Name ∧
        ((unitStores.Defs h (.ok uss) fs defs).mem p).Repo = (defs p).Repo ∧
        ((unitStores.Defs h (.ok uss) fs defs).mem p).CommitID = (defs p).CommitID ∧
        ((unitStores.Defs h (.ok uss) fs defs).mem p).Path = (defs p).Path ∧
        ((unitStores.Defs h (.ok uss) fs defs).mem p).Kind = (defs p).Kind ∧
        ((unitStores.Defs h (.ok uss) fs defs).mem p).File = (defs p).File ∧
        ((unitStores.Defs h (.ok uss) fs defs).mem p).DefStart = (defs p).DefStart ∧
        ((unitStores.Defs h (.ok uss) fs defs).mem p).DefEnd = (defs p).DefEnd ∧
        ((unitStores.Defs h (.ok uss) fs defs).mem p).Exported = (defs p).Exported ∧
        ((unitStores.Defs h (.ok uss) fs defs).mem p).Data = (defs p).Data) ∧
    (∀ u us, (u, some us) ∈ uss → (∀ x ∈ f, x.unrecognized = false) →
      (∀ e, (us.Refs (refsQueryFilters h f u)).2 = some e → h.isStoreNotExist e = true) →
      ∀ p ∈ (us.Refs (refsQueryFilters h f u)).1,
        (∀ q ∈ uss, p ∈ refsWritten h f q → q.1 = u) →
        p ∈ (unitStores.Refs h (.ok uss) f refs).ptrs ∧
        (unitStores.Refs h (.ok uss) f refs).mem p = populateRef u (refs p) ∧
        ((unitStores.Refs h (.ok uss) f refs).mem p).UnitType = u.Typ ∧
        ((unitStores.Refs h (.ok uss) f refs).mem p).Unit = u.Name ∧
        ((unitStores.Refs h (.ok uss) f refs).mem p).DefUnitType
          = (if (refs p).DefUnitType = "" then u.Typ else (refs p).DefUnitType) ∧
        ((unitStores.Refs h (.ok uss) f refs).mem p).DefUnit
          = (if (refs p).DefUnit = "" then u.Name else (refs p).DefUnit) ∧
        ((unitStores.Refs h (.ok uss) f refs).mem p).DefRepo = (refs p).DefRepo ∧
        ((unitStores.Refs h (.ok uss) f refs).mem p).DefPath = (refs p).DefPath ∧
        ((unitStores.Refs h (.ok uss) f refs).mem p).Def = (refs p).Def ∧
        ((unitStores.Refs h (.ok uss) f refs).mem p).File = (refs p).File ∧
        ((unitStores.Refs h (.ok uss) f refs).mem p).Start = (refs p).Start ∧
        ((unitStores.Refs h (.ok uss) f refs).mem p).End = (refs p).End ∧
        ((unitStores.Refs h (.ok uss) f refs).mem p).Repo = (refs p).Repo ∧
        ((unitStores.Refs h (.ok uss) f refs).mem p).CommitID = (refs p).CommitID) ∧
    (∀ p ∈ (unitStores.Defs h (.ok uss) fs defs).ptrs, ∃ u us, (u, some us) ∈ uss ∧
      (∀ e, (us.Defs (h.defFiltersForUnit u fs)).2 = some e → h.isStoreNotExist e = true) ∧
      p ∈ (us.Defs (h.defFiltersForUnit u fs)).1) ∧
    (∀ p ∈ (unitStores.Refs h (.ok uss) f refs).ptrs, ∃ u us, (u, some us) ∈ uss ∧
      (∀ x ∈ f, x.unrecognized = false) ∧
      (∀ e, (us.Refs (refsQueryFilters h f u)).2 = some e → h.isStoreNotExist e = true) ∧
      p ∈ (us.Refs (refsQueryFilters h f u)).1) := by
  refine ⟨?_, ?_, ?_, ?_⟩
  · intro u us hmem hs p hp hu
    have hw : p ∈ defsWritten h fs (u, some us) := (mem_defsWritten h fs u us p).2 ⟨hs, hp⟩
    have hval := Defs_mem_of_written h uss fs defs p u hu ⟨(u, some us), hmem, hw⟩
    refine ⟨?_, hval, ?_⟩
    · rw [Defs_ptrs, List.mem_flatMap]
      exact ⟨(u, some us), hmem, hw⟩
    · rw [hval]
      exact populateDef_fields u (defs p)
  · intro u us hmem hf hs p hp hu
    have hw : p ∈ refsWritten h f (u, some us) := (mem_refsWritten h f u us p).2 ⟨hf, hs, hp⟩
    have hval := Refs_mem_of_written h uss f refs p u hu ⟨(u, some us), hmem, hw⟩
    refine ⟨?_, hval, ?_⟩
    · rw [Refs_ptrs, List.mem_flatMap]
      exact ⟨(u, some us), hmem, hw⟩
    · rw [hval]
      obtain ⟨a1, a2, a3, a4, a5, a6, a7, a8, a9, a10⟩ := populateRef_fields u (refs p)
      obtain ⟨a11, a12⟩ := populateRef_repo_commit u (refs p)
      exact ⟨a1, a2, a3, a4, a5, a6, a7, a8, a9, a10, a11, a12⟩
  · intro p hp
    rw [Defs_ptrs, List.mem_flatMap] at hp
    obtain ⟨⟨u, us⟩, hq, hw⟩ := hp
    cases us with
    | none => exact absurd hw (not_mem_written_nil _ u p)
    | some us =>
      obtain ⟨hs, hp'⟩ := (mem_defsWritten h fs u us p).1 hw
      exact ⟨u, us, hq, hs, hp'⟩
  · intro p hp
    rw [Refs_ptrs, List.mem_flatMap] at hp
    obtain ⟨⟨u, us⟩, hq, hw⟩ := hp
    cases us with
    | none => exact absurd hw (not_mem_written_nil _ u p)
    | some us =>
      obtain ⟨hf, hs, hp'⟩ := (mem_refsWritten h f u us p).1 hw
      exact ⟨u, us, hq, hf, hs, hp'⟩

theorem sampleUnits_unshared (p : Ptr) (q : UnitID × Option (UnitStore Unit Unit))
    (hq : q ∈ [(unitU1, some goodStore), (unitU2, some otherStore)]) :
    (p ∈ defsWritten plainHelpers [] q → p = 0 → q.1 = unitU1) ∧
    (p ∈ refsWritten plainHelpers [] q → p = 0 → q.1 = unitU1) := by
  simp only [List.mem_cons, List.mem_singleton, List.not_mem_nil, or_false] at hq
  rcases hq with rfl | rfl
  · exact ⟨fun _ _ => rfl, fun _ _ => rfl⟩
  · refine ⟨?_, ?_⟩
    · intro hp h0
      subst h0
      have := ((mem_defsWritten plainHelpers [] unitU2 otherStore 0).1 hp).2
      simp [otherStore] at this
    · intro hp h0
      subst h0
      have := ((mem_refsWritten plainHelpers [] unitU2 otherStore 0).1 hp).2.2
      simp [otherStore] at this

/-- Concrete instance: unit `u1` hands out the records at address 0 and unit
`u2` those at address 1; the def and the ref at address 0 are returned with
the scope of `u1`. -/
theorem C6_scope_population_of_unshared_records_witness :
    (0 ∈ (unitStores.Defs plainHelpers (.ok [(unitU1, some goodStore), (unitU2, some otherStore)])
        [] defMemory).ptrs ∧
      (unitStores.Defs plainHelpers (.ok [(unitU1, some goodStore), (unitU2, some otherStore)])
        [] defMemory).mem 0 = populateDef unitU1 (defMemory 0)) ∧
    (0 ∈ (unitStores.Refs plainHelpers (.ok [(unitU1, some goodStore), (unitU2, some otherStore)])
        [] refMemory).ptrs ∧
      (unitStores.Refs plainHelpers (.ok [(unitU1, some goodStore), (unitU2, some otherStore)])
        [] refMemory).mem 0 = populateRef unitU1 (refMemory 0)) ∧
    (populateRef unitU1 (refMemory 0)).DefUnit = "u1" :=
  ⟨by
    obtain ⟨h1, h2, -⟩ :=
      (C6_scope_population_of_unshared_records plainHelpers
        [(unitU1, some goodStore), (unitU2, some otherStore)] [] [] defMemory refMemory).1
        unitU1 goodStore (List.mem_cons_self _ _) (by simp [goodStore]) 0 (by simp [goodStore])
        (fun q hq hp => (sampleUnits_unshared 0 q hq).1 hp rfl)
    exact ⟨h1, h2⟩,
   by
    obtain ⟨h1, h2, -⟩ :=
      (C6_scope_population_of_unshared_records plainHelpers
        [(unitU1, some goodStore), (unitU2, some otherStore)] [] [] defMemory refMemory).2.1
        unitU1 goodStore (List.mem_cons_self _ _) (by simp) (by simp [goodStore]) 0
        (by simp [goodStore]) (fun q hq hp => (sampleUnits_unshared 0 q hq).2 hp rfl)
    exact ⟨h1, h2⟩,
   by decide⟩

/-- C7: for every unit, in particular one with non-empty type and name,
blanking a ref with `cleanForImport` and then populating it as
`unitStores.Refs` does for that unit gives `UnitType = unitType`,
`Unit = unit`, `DefUnitType = r.DefUnitType` when that was non-empty and
`unitType` when it was empty, `DefUnit = r.DefUnit` when that was non-empty and
`unit` when it was empty; so a ref of the unit that names its referent unit
gets back its `UnitType`, `Unit`, `DefUnitType` and `DefUnit`. -/
theorem C7_blank_then_restore (r : Ref) (repo unitType unit : String) :
    (populateRef ⟨unitType, unit⟩ (cleanRef repo unitType unit r)).UnitType = unitType ∧
    (populateRef ⟨unitType, unit⟩ (cleanRef repo unitType unit r)).Unit = unit ∧
    (r.DefUnitType ≠ "" →
      (populateRef ⟨unitType, unit⟩ (cleanRef repo unitType unit r)).DefUnitType
        = r.DefUnitType) ∧
    (r.DefUnitType = "" →
      (populateRef ⟨unitType, unit⟩ (cleanRef repo unitType unit r)).DefUnitType = unitType) ∧
    (r.DefUnit ≠ "" →
      (populateRef ⟨unitType, unit⟩ (cleanRef repo unitType unit r)).DefUnit = r.DefUnit) ∧
    (r.DefUnit = "" →
      (populateRef ⟨unitType, unit⟩ (cleanRef repo unitType unit r)).DefUnit = unit) ∧
    (r.UnitType = unitType → r.Unit = unit → r.DefUnitType ≠ "" → r.DefUnit ≠ "" →
      (populateRef ⟨unitType, unit⟩ (cleanRef repo unitType unit r)).UnitType = r.UnitType ∧
      (populateRef ⟨unitType, unit⟩ (cleanRef repo unitType unit r)).Unit = r.Unit ∧
      (populateRef ⟨unitType, unit⟩ (cleanRef repo unitType unit r)).DefUnitType
        = r.DefUnitType ∧
      (populateRef ⟨unitType, unit⟩ (cleanRef repo unitType unit r)).DefUnit = r.DefUnit) := by
  obtain ⟨hT, hU, hDT, hDU, -⟩ := populateRef_fields ⟨unitType, unit⟩
    (cleanRef repo unitType unit r)
  rw [cleanRef_DefUnitType] at hDT
  rw [cleanRef_DefUnit] at hDU
  simp only at hT hU hDT hDU
  have h1 : r.DefUnitType ≠ "" →
      (populateRef ⟨unitType, unit⟩ (cleanRef repo unitType unit r)).DefUnitType
        = r.DefUnitType := by
    intro hne
    rw [hDT]
    by_cases heq : r.DefUnitType = unitType
    · simp [heq]
    · simp [heq, hne]
  have h2 : r.DefUnit ≠ "" →
      (populateRef ⟨unitType, unit⟩ (cleanRef repo unitType unit r)).DefUnit = r.DefUnit := by
    intro hne
    rw [hDU]
    by_cases heq : r.DefUnit = unit
    · simp [heq]
    · simp [heq, hne]
  refine ⟨hT, hU, h1, ?_, h2, ?_, ?_⟩
  · intro he
    rw [hDT]
    by_cases heq : r.DefUnitType = unitType
    · simp [heq]
    · simp [heq, he]
  · intro he
    rw [hDU]
    by_cases heq : r.DefUnit = unit
    · simp [heq]
    · simp [heq, he]
  · intro hrT hrU hne1 hne2
    exact ⟨hT.trans hrT.symm, hU.trans hrU.symm, h1 hne1, h2 hne2⟩

/-- Concrete instance: a ref of unit `u1` that names unit `u2` as its
referent unit gets its four unit fields back, and a ref with blank referent
unit gets the referrer unit `u1`. -/
theorem C7_blank_then_restore_witness :
    (scopedRef.UnitType = "GoPackage" ∧ scopedRef.Unit = "u1" ∧
      scopedRef.DefUnitType ≠ "" ∧ scopedRef.DefUnit ≠ "") ∧
    ((populateRef ⟨"GoPackage", "u1"⟩ (cleanRef "r" "GoPackage" "u1" scopedRef)).UnitType
        = scopedRef.UnitType ∧
      (populateRef ⟨"GoPackage", "u1"⟩ (cleanRef "r" "GoPackage" "u1" scopedRef)).Unit
        = scopedRef.Unit ∧
      (populateRef ⟨"GoPackage", "u1"⟩ (cleanRef "r" "GoPackage" "u1" scopedRef)).DefUnitType
        = scopedRef.DefUnitType ∧
      (populateRef ⟨"GoPackage", "u1"⟩ (cleanRef "r" "GoPackage" "u1" scopedRef)).DefUnit
        = scopedRef.DefUnit) ∧
    storedRef.DefUnit = "" ∧
    (populateRef ⟨"GoPackage", "u1"⟩ (cleanRef "r" "GoPackage" "u1" storedRef)).DefUnit = "u1" :=
  ⟨⟨rfl, rfl, by decide, by decide⟩,
   (C7_blank_then_restore scopedRef "r" "GoPackage" "u1").2.2.2.2.2.2 rfl rfl (by decide)
      (by decide),
   rfl,
   (C7_blank_then_restore storedRef "r" "GoPackage" "u1").2.2.2.2.2.1 rfl⟩

/-! ## Errors of the fan-out -/

theorem fanOut_values {S R : Type} (pre : UnitID → S → Except Err (List Ptr))
    (body : UnitID → R → R) (hidem : ∀ u x, body u (body u x) = body u x)
    (uss : List (UnitID × Option S)) (mem : Ptr → R)
    (hun : ∀ q ∈ uss, ∀ q' ∈ uss, ∀ p, p ∈ contribution pre q → p ∈ contribution pre q' →
      q.1 = q'.1) :
    (fanOut (runWorker pre body) uss mem).all.map (fanOut (runWorker pre body) uss mem).mem =
      uss.flatMap (fun q => (contribution pre q).map (fun p => body q.1 (mem p))) := by
  rw [fanOut_all, List.map_flatMap]
  apply flatMap_eq_of_forall_mem
  intro q hq
  apply List.map_congr_left
  intro p hp
  exact (fanOut_mem pre body hidem uss p q.1
    (fun q' hq' hp' => hun q' hq' q hq p hp' hp) mem).1 ⟨q, hq, hp⟩

theorem Defs_values {DF V : Type} (h : Helpers DF V)
    (uss : List (UnitID × Option (UnitStore DF V))) (fs : List DF) (mem : Ptr → Def)
    (hun : defsUnshared h fs uss) :
    (unitStores.Defs h (.ok uss) fs mem).values =
      uss.flatMap (fun q => (defsWritten h fs q).map (fun p => populateDef q.1 (mem p))) := by
  simp only [QueryResult.values, unitStores.Defs, defsWorker_eq_runWorker]
  exact fanOut_values (defsAppended h fs) populateDef populateDef_idempotent uss mem hun

theorem Refs_values {DF V : Type} (h : Helpers DF V)
    (uss : List (UnitID × Option (UnitStore DF V))) (f : List (RefFilter V)) (mem : Ptr → Ref)
    (hun : refsUnshared h f uss) :
    (unitStores.Refs h (.ok uss) f mem).values =
      uss.flatMap (fun q => (refsWritten h f q).map (fun p => populateRef q.1 (mem p))) := by
  simp only [QueryResult.values, unitStores.Refs, refsWorker_eq_runWorker]
  exact fanOut_values (refsAppended h f) populateRef populateRef_idempotent uss mem hun

theorem Refs_of_unrecognized {DF V : Type} (h : Helpers DF V) (f : List (RefFilter V)) (e : Err)
    (hc : copyFilters f = .error e) (uss : List (UnitID × Option (UnitStore DF V)))
    (mem : Ptr → Ref) :
    (unitStores.Refs h (.ok uss) f mem).ptrs = [] ∧
    (unitStores.Refs h (.ok uss) f mem).mem = mem ∧
    ∀ x ∈ uss.flatMap (workerError (refsAppended h f)), x = e := by
  have hnone : ∀ q ∈ uss, refsWritten h f q = [] := by
    rintro ⟨u, us⟩ -
    cases us with
    | none => rfl
    | some us => simp [refsWritten, contribution, refsAppended_of_unrecognized h f u us e hc]
  refine ⟨?_, ?_, ?_⟩
  · rw [Refs_ptrs]
    exact flatMap_eq_nil_of_forall_mem _ _ hnone
  · funext p
    exact Refs_mem_of_unwritten h uss f mem p (fun q hq => by simp [hnone q hq])
  · intro x hx
    obtain ⟨u, us, -, hw⟩ := (mem_flatMap_workerError _ _ _).1 hx
    rw [refsAppended_of_unrecognized h f u us e hc] at hw
    simp only [Except.error.injEq] at hw
    exact hw.symm

theorem Refs_of_all_nil {DF V : Type} (h : Helpers DF V) (f : List (RefFilter V))
    (uss : List (UnitID × Option (UnitStore DF V))) (mem : Ptr → Ref)
    (hnil : ∀ q ∈ uss, q.2 = none) :
    (unitStores.Refs h (.ok uss) f mem).ptrs = [] ∧
    (unitStores.Refs h (.ok uss) f mem).err = none ∧
    (unitStores.Refs h (.ok uss) f mem).mem = mem := by
  have hnone : ∀ q ∈ uss, refsWritten h f q = [] := by
    rintro ⟨u, us⟩ hq
    have hus : us = none := hnil (u, us) hq
    subst hus
    rfl
  have herr : ∀ q ∈ uss, workerError (refsAppended h f) q = [] := by
    rintro ⟨u, us⟩ hq
    have hus : us = none := hnil (u, us) hq
    subst hus
    rfl
  refine ⟨?_, ?_, ?_⟩
  · rw [Refs_ptrs]
    exact flatMap_eq_nil_of_forall_mem _ _ hnone
  · rw [Refs_err, parWait_eq_none]
    exact flatMap_eq_nil_of_forall_mem _ _ herr
  · funext p
    exact Refs_mem_of_unwritten h uss f mem p (fun q hq => by simp [hnone q hq])

theorem shared_record_values :
    ¬ refsUnshared plainHelpers []
        [(unitU1, some goodStore), (unitU2, some goodStore)] ∧
    (unitStores.Refs plainHelpers (.ok [(unitU1, some goodStore), (unitU2, some goodStore)]) []
      refMemory).values =
      [{ storedRef with UnitType := "GoPackage", Unit := "u2", DefUnitType := "GoPackage",
                        DefUnit := "u1" },
       { storedRef with UnitType := "GoPackage", Unit := "u2", DefUnitType := "GoPackage",
                        DefUnit := "u1" }] := by
  refine ⟨?_, by decide⟩
  intro hun
  have h1 : (0 : Ptr) ∈ refsWritten plainHelpers [] (unitU1, some goodStore) :=
    (mem_refsWritten plainHelpers [] unitU1 goodStore 0).2
      ⟨by simp, by simp [goodStore], by simp [goodStore]⟩
  have h2 : (0 : Ptr) ∈ refsWritten plainHelpers [] (unitU2, some goodStore) :=
    (mem_refsWritten plainHelpers [] unitU2 goodStore 0).2
      ⟨by simp, by simp [goodStore], by simp [goodStore]⟩
  have := hun (unitU1, some goodStore) (by simp) (unitU2, some goodStore) (by simp) 0 h1 h2
  exact absurd this (by decide)

/-- C8, as stated, fails: with a filter list holding a filter of an unknown
type that implements `impliedUnitSetter`, `unitStores.Refs` returns a nil error
when no unit is opened, and also when the only opened unit has a nil store. -/
theorem C8_no_error_without_unit :
    strangeFilter.unrecognized = true ∧
    (unitStores.Refs plainHelpers (.ok []) [strangeFilter] refMemory).err = none ∧
    (unitStores.Refs plainHelpers (.ok []) [strangeFilter] refMemory).ptrs = [] ∧
    (unitStores.Refs plainHelpers (.ok [(unitU1, none)]) [strangeFilter] refMemory).err = none ∧
    (unitStores.Refs plainHelpers (.ok [(unitU1, none)]) [strangeFilter] refMemory).ptrs = [] := by
  refine ⟨rfl, rfl, rfl, rfl, rfl⟩

/-- C8, amended: when the filter list holds a filter that implements
`impliedUnitSetter` and is neither a `*absRefFilterFunc` nor a
`*byRefDefFilter`, the copying loop fails with an error naming such a filter,
and `unitStores.Refs` returns a non-nil error and no record, and writes to no
record, for every set of opened units of which at least one has a non-nil
store; when no opened unit has a non-nil store it returns a nil error and no
record.  When every filter is a `*absRefFilterFunc`, a `*byRefDefFilter` or not
an `impliedUnitSetter`, the copying loop raises no error and passes on a list
of the same length in which the filters of the two cloneable kinds are fresh
copies and the others are the same filters. -/
theorem C8_unrecognized_filter_error {DF V : Type} (h : Helpers DF V) (f : List (RefFilter V)) :
    ((∃ x ∈ f, x.unrecognized = true) →
      (∃ ty v, RefFilter.other ty true v ∈ f ∧
        copyFilters f = .error ("cannot shallow-copy unrecognized filter type " ++ ty)) ∧
      (∀ (uss : List (UnitID × Option (UnitStore DF V))) (refs : Ptr → Ref),
        (∃ u us, (u, some us) ∈ uss) →
        ∃ errs, errs ≠ [] ∧
          (unitStores.Refs h (.ok uss) f refs).ptrs = [] ∧
          (unitStores.Refs h (.ok uss) f refs).err = some (.workers errs) ∧
          (unitStores.Refs h (.ok uss) f refs).mem = refs)) ∧
    (∀ (uss : List (UnitID × Option (UnitStore DF V))) (refs : Ptr → Ref),
        (∀ p ∈ uss, p.2 = none) →
        (unitStores.Refs h (.ok uss) f refs).ptrs = [] ∧
        (unitStores.Refs h (.ok uss) f refs).err = none ∧
        (unitStores.Refs h (.ok uss) f refs).mem = refs) ∧
    ((∀ x ∈ f, x.unrecognized = false) →
      ∃ cs, copyFilters f = .ok cs ∧ cs.length = f.length ∧
        ∀ (i : Nat) (x : RefFilter V), f[i]? = some x →
          cs[i]? = some (if x.cloneable then .fresh x else .same x)) := by
  refine ⟨?_, ?_, ?_⟩
  · intro hf
    obtain ⟨ty, v, hmem, hc⟩ := copyFilters_of_unrecognized f hf
    refine ⟨⟨ty, v, hmem, hc⟩, ?_⟩
    rintro uss refs ⟨u, us, hu⟩
    obtain ⟨h1, h2, -⟩ := Refs_of_unrecognized h f _ hc uss refs
    have herr : ("cannot shallow-copy unrecognized filter type " ++ ty) ∈
        uss.flatMap (workerError (refsAppended h f)) :=
      (mem_flatMap_workerError _ _ _).2
        ⟨u, us, hu, refsAppended_of_unrecognized h f u us _ hc⟩
    refine ⟨_, List.ne_nil_of_mem herr, h1, ?_, h2⟩
    rw [Refs_err, parWait_of_mem _ _ herr]
  · intro uss refs hnil
    exact Refs_of_all_nil h f uss refs hnil
  · intro hf
    refine ⟨_, copyFilters_of_recognized f hf, by simp, ?_⟩
    intro i x hx
    simp [hx]

/-- Concrete instance: with the strange filter and one opened unit,
`unitStores.Refs` fails; with only a unit without store it does not; without
the strange filter the copying loop succeeds. -/
theorem C8_unrecognized_filter_error_witness :
    (∃ errs, errs ≠ [] ∧
      (unitStores.Refs plainHelpers (.ok [(unitU1, some goodStore)]) [strangeFilter]
        refMemory).ptrs = [] ∧
      (unitStores.Refs plainHelpers (.ok [(unitU1, some goodStore)]) [strangeFilter]
        refMemory).err = some (.workers errs) ∧
      (unitStores.Refs plainHelpers (.ok [(unitU1, some goodStore)]) [strangeFilter]
        refMemory).mem = refMemory) ∧
    (unitStores.Refs plainHelpers (.ok [(unitU1, none)]) [strangeFilter] refMemory).err
      = none ∧
    (∃ cs, copyFilters [RefFilter.absRefFilterFunc (), RefFilter.other "*store.byFile" false ()]
        = .ok cs ∧ cs.length = 2 ∧
        ∀ (i : Nat) (x : RefFilter Unit),
          [RefFilter.absRefFilterFunc (), RefFilter.other "*store.byFile" false ()][i]? = some x →
          cs[i]? = some (if x.cloneable then .fresh x else .same x)) :=
  ⟨((C8_unrecognized_filter_error plainHelpers [strangeFilter]).1
      ⟨strangeFilter, List.mem_cons_self _ _, rfl⟩).2
      [(unitU1, some goodStore)] refMemory ⟨unitU1, goodStore, List.mem_cons_self _ _⟩,
   ((C8_unrecognized_filter_error plainHelpers [strangeFilter]).2.1
      [(unitU1, none)] refMemory (by simp)).2.1,
   (C8_unrecognized_filter_error plainHelpers
      [RefFilter.absRefFilterFunc (), RefFilter.other "*store.byFile" false ()]).2.2
      (by decide)⟩

/-- C9, as stated, fails: with one unit store that returns a def and a ref and
one that fails with an error that is not NotExist, `unitStores.Defs` and
`unitStores.Refs` return the error together with the records of the first unit,
not an empty list. -/
theorem C9_partial_results_returned :
    (corruptStore.Defs []).2 = some "corrupt" ∧
    plainHelpers.isStoreNotExist "corrupt" = false ∧
    (unitStores.Defs plainHelpers (.ok [(unitU1, some goodStore), (unitU2, some corruptStore)])
      [] defMemory).err = some (.workers ["corrupt"]) ∧
    (unitStores.Defs plainHelpers (.ok [(unitU1, some goodStore), (unitU2, some corruptStore)])
      [] defMemory).values = [populateDef unitU1 storedDef] ∧
    (unitStores.Refs plainHelpers (.ok [(unitU1, some goodStore), (unitU2, some corruptStore)])
      [] refMemory).err = some (.workers ["corrupt"]) ∧
    (unitStores.Refs plainHelpers (.ok [(unitU1, some goodStore), (unitU2, some corruptStore)])
      [] refMemory).values = [populateRef unitU1 storedRef] := by
  refine ⟨rfl, by decide, by decide, by decide, by decide, by decide⟩

/-- C9, amended: whenever a unit store of the fan-out returns an error that is
not NotExist, `unitStores.Defs` and `unitStores.Refs` return a non-nil error
(the `parallel.Errors` of the workers: for `Defs` it holds that error, for
`Refs` it holds that error when no filter is an unrecognized
`impliedUnitSetter`); the record list is not emptied: it holds exactly the
records returned by the stores of the units whose worker did not fail, and,
when no record is handed out by the stores of two different units, these read
as stored with the scope of their unit populated. -/
theorem C9_error_keeps_partial_results {DF V : Type} (h : Helpers DF V)
    (uss : List (UnitID × Option (UnitStore DF V))) (fs : List DF) (f : List (RefFilter V))
    (defs : Ptr → Def) (refs : Ptr → Ref)
    (u : UnitID) (us : UnitStore DF V) (e : Err) (hmem : (u, some us) ∈ uss)
    (hne : h.isStoreNotExist e = false) :
    ((us.Defs (h.defFiltersForUnit u fs)).2 = some e →
      (∃ errs, e ∈ errs ∧ (unitStores.Defs h (.ok uss) fs defs).err = some (.workers errs)) ∧
      (∀ p, p ∈ (unitStores.Defs h (.ok uss) fs defs).ptrs ↔
        ∃ u' us', (u', some us') ∈ uss ∧
          (∀ e', (us'.Defs (h.defFiltersForUnit u' fs)).2 = some e' →
            h.isStoreNotExist e' = true) ∧
          p ∈ (us'.Defs (h.defFiltersForUnit u' fs)).1) ∧
      (defsUnshared h fs uss →
        ∀ d, d ∈ (unitStores.Defs h (.ok uss) fs defs).values ↔
          ∃ u' us', (u', some us') ∈ uss ∧
            (∀ e', (us'.Defs (h.defFiltersForUnit u' fs)).2 = some e' →
              h.isStoreNotExist e' = true) ∧
            ∃ p ∈ (us'.Defs (h.defFiltersForUnit u' fs)).1, d = populateDef u' (defs p))) ∧
    ((us.Refs (refsQueryFilters h f u)).2 = some e →
      (∃ errs, errs ≠ [] ∧ ((∀ x ∈ f, x.unrecognized = false) → e ∈ errs) ∧
        (unitStores.Refs h (.ok uss) f refs).err = some (.workers errs)) ∧
      (∀ p, p ∈ (unitStores.Refs h (.ok uss) f refs).ptrs ↔
        ∃ u' us', (u', some us') ∈ uss ∧ (∀ x ∈ f, x.unrecognized = false) ∧
          (∀ e', (us'.Refs (refsQueryFilters h f u')).2 = some e' →
            h.isStoreNotExist e' = true) ∧
          p ∈ (us'.Refs (refsQueryFilters h f u')).1) ∧
      (refsUnshared h f uss →
        ∀ r, r ∈ (unitStores.Refs h (.ok uss) f refs).values ↔
          ∃ u' us', (u', some us') ∈ uss ∧ (∀ x ∈ f, x.unrecognized = false) ∧
            (∀ e', (us'.Refs (refsQueryFilters h f u')).2 = some e' →
              h.isStoreNotExist e' = true) ∧
            ∃ p ∈ (us'.Refs (refsQueryFilters h f u')).1, r = populateRef u' (refs p))) := by
  refine ⟨?_, ?_⟩
  · intro he
    have herr : e ∈ uss.flatMap (workerError (defsAppended h fs)) :=
      (mem_flatMap_workerError _ _ _).2 ⟨u, us, hmem, defsAppended_of_fails h fs u us e he hne⟩
    refine ⟨⟨_, herr, by rw [Defs_err, parWait_of_mem _ _ herr]⟩, ?_, ?_⟩
    · intro p
      rw [Defs_ptrs, List.mem_flatMap]
      constructor
      · rintro ⟨⟨u', us'⟩, hq, hw⟩
        cases us' with
        | none => exact absurd hw (not_mem_written_nil _ u' p)
        | some us' =>
          obtain ⟨hs, hp⟩ := (mem_defsWritten h fs u' us' p).1 hw
          exact ⟨u', us', hq, hs, hp⟩
      · rintro ⟨u', us', hq, hs, hp⟩
        exact ⟨(u', some us'), hq, (mem_defsWritten h fs u' us' p).2 ⟨hs, hp⟩⟩
    · intro hun d
      rw [Defs_values h uss fs defs hun, List.mem_flatMap]
      constructor
      · rintro ⟨⟨u', us'⟩, hq, hd⟩
        obtain ⟨p, hw, rfl⟩ := List.mem_map.1 hd
        cases us' with
        | none => exact absurd hw (not_mem_written_nil _ u' p)
        | some us' =>
          obtain ⟨hs, hp⟩ := (mem_defsWritten h fs u' us' p).1 hw
          exact ⟨u', us', hq, hs, p, hp, rfl⟩
      · rintro ⟨u', us', hq, hs, p, hp, rfl⟩
        exact ⟨(u', some us'), hq,
          List.mem_map.2 ⟨p, (mem_defsWritten h fs u' us' p).2 ⟨hs, hp⟩, rfl⟩⟩
  · intro he
    obtain ⟨e', hw', he'⟩ := refsAppended_error_exists h f u us e he hne
    have herr : e' ∈ uss.flatMap (workerError (refsAppended h f)) :=
      (mem_flatMap_workerError _ _ _).2 ⟨u, us, hmem, hw'⟩
    refine ⟨⟨_, List.ne_nil_of_mem herr, fun hall => he' hall ▸ herr,
      by rw [Refs_err, parWait_of_mem _ _ herr]⟩, ?_, ?_⟩
    · intro p
      rw [Refs_ptrs, List.mem_flatMap]
      constructor
      · rintro ⟨⟨u', us'⟩, hq, hw⟩
        cases us' with
        | none => exact absurd hw (not_mem_written_nil _ u' p)
        | some us' =>
          obtain ⟨hf, hs, hp⟩ := (mem_refsWritten h f u' us' p).1 hw
          exact ⟨u', us', hq, hf, hs, hp⟩
      · rintro ⟨u', us', hq, hf, hs, hp⟩
        exact ⟨(u', some us'), hq, (mem_refsWritten h f u' us' p).2 ⟨hf, hs, hp⟩⟩
    · intro hun r
      rw [Refs_values h uss f refs hun, List.mem_flatMap]
      constructor
      · rintro ⟨⟨u', us'⟩, hq, hd⟩
        obtain ⟨p, hw, rfl⟩ := List.mem_map.1 hd
        cases us' with
        | none => exact absurd hw (not_mem_written_nil _ u' p)
        | some us' =>
          obtain ⟨hf, hs, hp⟩ := (mem_refsWritten h f u' us' p).1 hw
          exact ⟨u', us', hq, hf, hs, p, hp, rfl⟩
      · rintro ⟨u', us', hq, hf, hs, p, hp, rfl⟩
        exact ⟨(u', some us'), hq,
          List.mem_map.2 ⟨p, (mem_refsWritten h f u' us' p).2 ⟨hf, hs, hp⟩, rfl⟩⟩

/-- Concrete instance: one good and one corrupt unit store. -/
theorem C9_error_keeps_partial_results_witness :
    (∃ errs, "corrupt" ∈ errs ∧
      (unitStores.Defs plainHelpers
        (.ok [(unitU1, some goodStore), (unitU2, some corruptStore)]) [] defMemory).err
        = some (.workers errs)) ∧
    (∃ errs, errs ≠ [] ∧
      ((∀ x ∈ ([] : List (RefFilter Unit)), x.unrecognized = false) → "corrupt" ∈ errs) ∧
      (unitStores.Refs plainHelpers
        (.ok [(unitU1, some goodStore), (unitU2, some corruptStore)]) [] refMemory).err
        = some (.workers errs)) :=
  ⟨((C9_error_keeps_partial_results plainHelpers
      [(unitU1, some goodStore), (unitU2, some corruptStore)] [] [] defMemory refMemory
      unitU2 corruptStore "corrupt" (by simp) (by decide)).1 rfl).1,
   ((C9_error_keeps_partial_results plainHelpers
      [(unitU1, some goodStore), (unitU2, some corruptStore)] [] [] defMemory refMemory
      unitU2 corruptStore "corrupt" (by simp) (by decide)).2 rfl).1⟩

theorem written_defs_of_benign {DF V : Type} (h : Helpers DF V) (fs : List DF)
    (p : UnitID × Option (UnitStore DF V))
    (hp : ∀ us, p.2 = some us →
      (us.Defs (h.defFiltersForUnit p.1 fs)).2 = none ∨
      ∃ e, (us.Defs (h.defFiltersForUnit p.1 fs)).2 = some e ∧ h.isStoreNotExist e = true ∧
        (us.Defs (h.defFiltersForUnit p.1 fs)).1 = []) :
    defsWritten h fs p = succeededDefs h fs p ∧
      workerError (defsAppended h fs) p = [] := by
  obtain ⟨u, us⟩ := p
  cases us with
  | none => exact ⟨rfl, rfl⟩
  | some us =>
    have hq := hp us rfl
    simp only [defsWritten, contribution, workerError, succeededDefs, defsAppended] at hq ⊢
    rcases hres : us.Defs (h.defFiltersForUnit u fs) with ⟨defs, err⟩
    rw [hres] at hq
    rcases hq with hnone | ⟨e, hsome, hne, hempty⟩
    · simp only at hnone
      subst hnone
      exact ⟨rfl, rfl⟩
    · simp only at hsome hempty
      subst hsome
      subst hempty
      simp [hne]

theorem written_refs_of_benign {DF V : Type} (h : Helpers DF V) (f : List (RefFilter V))
    (hf : ∀ x ∈ f, x.unrecognized = false) (p : UnitID × Option (UnitStore DF V))
    (hp : ∀ us, p.2 = some us →
      (us.Refs (refsQueryFilters h f p.1)).2 = none ∨
      ∃ e, (us.Refs (refsQueryFilters h f p.1)).2 = some e ∧ h.isStoreNotExist e = true ∧
        (us.Refs (refsQueryFilters h f p.1)).1 = []) :
    refsWritten h f p = succeededRefs h f p ∧
      workerError (refsAppended h f) p = [] := by
  obtain ⟨u, us⟩ := p
  cases us with
  | none => exact ⟨rfl, rfl⟩
  | some us =>
    have hq := hp us rfl
    have hc := copyFilters_of_recognized f hf
    simp only [refsWritten, contribution, workerError, succeededRefs, refsAppended, hc] at hq ⊢
    rcases hres : us.Refs (refsQueryFilters h f u) with ⟨refs, err⟩
    rw [hres] at hq
    rcases hq with hnone | ⟨e, hsome, hne, hempty⟩
    · simp only at hnone
      subst hnone
      exact ⟨rfl, rfl⟩
    · simp only at hsome hempty
      subst hsome
      subst hempty
      simp [hne]

/-- C10, as stated, fails for `unitStores.Refs`: with a filter of an unknown
type that implements `impliedUnitSetter`, it returns a non-nil error although
the only opened unit store succeeds on the filter list it would be handed. -/
theorem C10_refs_error_without_store_error :
    (goodStore.Refs (refsQueryFilters plainHelpers [strangeFilter] unitU1)).2 = none ∧
    (unitStores.Refs plainHelpers (.ok [(unitU1, some goodStore)]) [strangeFilter]
      refMemory).err
      = some (.workers ["cannot shallow-copy unrecognized filter type *store.strangeFilter"]) ∧
    (unitStores.Refs plainHelpers (.ok [(unitU1, some goodStore)]) [strangeFilter]
      refMemory).ptrs = [] := by
  refine ⟨rfl, by decide, by decide⟩

/-- C10, amended: if every opened unit store either succeeds or fails with a
NotExist error (returning no records), then `unitStores.Defs` returns a nil
error, and so does `unitStores.Refs` provided no filter of the list is an
unrecognized `impliedUnitSetter`; the returned list is, as a multiset (for
every order in which the units are taken), the union of the records returned
by the succeeding unit stores, units whose store is nil contributing nothing;
and when no record is handed out by the stores of two different units, the
records read as stored with the scope of their unit populated. -/
theorem C10_missing_unit_is_empty_result {DF V : Type} (h : Helpers DF V)
    (uss : List (UnitID × Option (UnitStore DF V))) (fs : List DF) (f : List (RefFilter V))
    (defs : Ptr → Def) (refs : Ptr → Ref) :
    ((∀ u us, (u, some us) ∈ uss →
        (us.Defs (h.defFiltersForUnit u fs)).2 = none ∨
        ∃ e, (us.Defs (h.defFiltersForUnit u fs)).2 = some e ∧ h.isStoreNotExist e = true ∧
          (us.Defs (h.defFiltersForUnit u fs)).1 = []) →
      (unitStores.Defs h (.ok uss) fs defs).err = none ∧
      (∀ uss', uss.Perm uss' →
        (unitStores.Defs h (.ok uss) fs defs).ptrs.Perm (uss'.flatMap (succeededDefs h fs))) ∧
      (defsUnshared h fs uss → ∀ uss', uss.Perm uss' →
        (unitStores.Defs h (.ok uss) fs defs).values.Perm
          (uss'.flatMap fun q =>
            (succeededDefs h fs q).map fun p => populateDef q.1 (defs p)))) ∧
    ((∀ x ∈ f, x.unrecognized = false) →
      (∀ u us, (u, some us) ∈ uss →
        (us.Refs (refsQueryFilters h f u)).2 = none ∨
        ∃ e, (us.Refs (refsQueryFilters h f u)).2 = some e ∧ h.isStoreNotExist e = true ∧
          (us.Refs (refsQueryFilters h f u)).1 = []) →
      (unitStores.Refs h (.ok uss) f refs).err = none ∧
      (∀ uss', uss.Perm uss' →
        (unitStores.Refs h (.ok uss) f refs).ptrs.Perm (uss'.flatMap (succeededRefs h f))) ∧
      (refsUnshared h f uss → ∀ uss', uss.Perm uss' →
        (unitStores.Refs h (.ok uss) f refs).values.Perm
          (uss'.flatMap fun q =>
            (succeededRefs h f q).map fun p => populateRef q.1 (refs p)))) := by
  refine ⟨?_, ?_⟩
  · intro hall
    have hpt : ∀ p ∈ uss, defsWritten h fs p = succeededDefs h fs p ∧
        workerError (defsAppended h fs) p = [] := by
      rintro ⟨u, us⟩ hp
      apply written_defs_of_benign
      intro us' hus'
      simp only at hus'
      subst hus'
      exact hall u us' hp
    refine ⟨?_, ?_, ?_⟩
    · rw [Defs_err, parWait_eq_none]
      exact flatMap_eq_nil_of_forall_mem _ _ (fun p hp => (hpt p hp).2)
    · intro uss' hperm
      rw [Defs_ptrs, flatMap_eq_of_forall_mem _ _ _ (fun p hp => (hpt p hp).1)]
      exact hperm.flatMap_right _
    · intro hun uss' hperm
      rw [Defs_values h uss fs defs hun,
        flatMap_eq_of_forall_mem uss _
          (fun q => (succeededDefs h fs q).map fun p => populateDef q.1 (defs p))
          (fun q hq => by rw [(hpt q hq).1])]
      exact hperm.flatMap_right _
  · intro hf hall
    have hpt : ∀ p ∈ uss, refsWritten h f p = succeededRefs h f p ∧
        workerError (refsAppended h f) p = [] := by
      rintro ⟨u, us⟩ hp
      apply written_refs_of_benign h f hf
      intro us' hus'
      simp only at hus'
      subst hus'
      exact hall u us' hp
    refine ⟨?_, ?_, ?_⟩
    · rw [Refs_err, parWait_eq_none]
      exact flatMap_eq_nil_of_forall_mem _ _ (fun p hp => (hpt p hp).2)
    · intro uss' hperm
      rw [Refs_ptrs, flatMap_eq_of_forall_mem _ _ _ (fun p hp => (hpt p hp).1)]
      exact hperm.flatMap_right _
    · intro hun uss' hperm
      rw [Refs_values h uss f refs hun,
        flatMap_eq_of_forall_mem uss _
          (fun q => (succeededRefs h f q).map fun p => populateRef q.1 (refs p))
          (fun q hq => by rw [(hpt q hq).1])]
      exact hperm.flatMap_right _

theorem sampleStores_benign (u : UnitID) (us : UnitStore Unit Unit)
    (hmem : (u, some us) ∈
      [(unitU1, some goodStore), (unitU2, some missingStore), (unitU3, none)]) :
    us = goodStore ∨ us = missingStore := by
  simp only [List.mem_cons, Prod.mk.injEq, Option.some.injEq, List.mem_singleton] at hmem
  rcases hmem with ⟨-, h1⟩ | ⟨-, h1⟩ | ⟨-, h1⟩
  · exact Or.inl h1
  · exact Or.inr h1
  · cases h1
  · contradiction

/-- Concrete instance: a good unit store, a missing one and a unit without
store give a nil error. -/
theorem C10_missing_unit_is_empty_result_witness :
    (unitStores.Defs plainHelpers
      (.ok [(unitU1, some goodStore), (unitU2, some missingStore), (unitU3, none)]) []
      defMemory).err = none ∧
    (unitStores.Refs plainHelpers
      (.ok [(unitU1, some goodStore), (unitU2, some missingStore), (unitU3, none)]) []
      refMemory).err = none :=
  ⟨((C10_missing_unit_is_empty_result plainHelpers
      [(unitU1, some goodStore), (unitU2, some missingStore), (unitU3, none)] [] []
      defMemory refMemory).1
      (fun u us hmem => by
        rcases sampleStores_benign u us hmem with rfl | rfl
        · exact Or.inl rfl
        · exact Or.inr ⟨"not exist", rfl, by decide, rfl⟩)).1,
   ((C10_missing_unit_is_empty_result plainHelpers
      [(unitU1, some goodStore), (unitU2, some missingStore), (unitU3, none)] [] []
      defMemory refMemory).2
      (by simp)
      (fun u us hmem => by
        rcases sampleStores_benign u us hmem with rfl | rfl
        · exact Or.inl rfl
        · exact Or.inr ⟨"not exist", rfl, by decide, rfl⟩)).1⟩

/-! ## The sort key -/

theorem sortKey_data (r : Ref) :
    r.sortKey.data = r.DefPath.data ++ (r.DefRepo.data ++ (r.DefUnitType.data ++
      (r.DefUnit.data ++ (r.Repo.data ++ (r.UnitType.data ++ (r.Unit.data ++ (r.File.data ++
      ((Itoa r.Start).data ++ (Itoa r.End).data)))))))) := by
  simp [Ref.sortKey, String.data_append, List.append_assoc]

theorem string_eq_iff_data (s t : String) : s = t ↔ s.data = t.data := by
  constructor
  · intro h
    rw [h]
  · intro h
    cases s
    cases t
    simp only at h
    rw [h]

theorem Itoa_ofNat_data (n : Nat) : (Itoa (Int.ofNat n)).data = Nat.toDigits 10 n := rfl

theorem Itoa_negSucc_data (n : Nat) :
    (Itoa (Int.negSucc n)).data = '-' :: Nat.toDigits 10 (n + 1) := rfl

theorem Itoa_injective (i j : Int) (h : Itoa i = Itoa j) : i = j := by
  have hd : (Itoa i).data = (Itoa j).data := by rw [h]
  cases i with
  | ofNat m =>
    cases j with
    | ofNat n =>
      rw [Itoa_ofNat_data, Itoa_ofNat_data] at hd
      rw [toDigits_injective m n hd]
    | negSucc n =>
      rw [Itoa_ofNat_data, Itoa_negSucc_data] at hd
      have hmem : '-' ∈ Nat.toDigits 10 m := by
        rw [hd]
        exact List.mem_cons_self _ _
      exact absurd rfl (toDigits_ne_minus m _ hmem)
  | negSucc m =>
    cases j with
    | ofNat n =>
      rw [Itoa_ofNat_data, Itoa_negSucc_data] at hd
      have hmem : '-' ∈ Nat.toDigits 10 n := by
        rw [← hd]
        exact List.mem_cons_self _ _
      exact absurd rfl (toDigits_ne_minus n _ hmem)
    | negSucc n =>
      rw [Itoa_negSucc_data, Itoa_negSucc_data] at hd
      have hmn := toDigits_injective _ _ (List.cons_injective hd)
      have : m = n := by omega
      rw [this]

theorem Itoa_less_iff (i j : Int) (hi : 0 ≤ i) (hj : 0 ≤ j)
    (hlen : (Itoa i).length = (Itoa j).length) :
    bytesLess (Itoa i).data (Itoa j).data ↔ i < j := by
  cases i with
  | negSucc m => exact absurd hi (by simp)
  | ofNat m =>
    cases j with
    | negSucc n => exact absurd hj (by simp)
    | ofNat n =>
      have hl : (Nat.toDigits 10 m).length = (Nat.toDigits 10 n).length := hlen
      rw [Itoa_ofNat_data, Itoa_ofNat_data, toDigits_less_iff m n hl]
      simp

theorem bytesLess_append_left (x y y' : List Char) :
    bytesLess (x ++ y) (x ++ y') ↔ bytesLess y y' := by
  rw [bytesLess_append_of_length_eq x x y y' rfl]
  constructor
  · rintro (h | ⟨-, h⟩)
    · exact absurd h (bytesLess_irrefl x)
    · exact h
  · intro h
    exact Or.inr ⟨rfl, h⟩

theorem bytesLess_append_of_prefixFree (x x' y y' : List Char) (h₁ : ¬ x <+: x')
    (h₂ : ¬ x' <+: x) : bytesLess (x ++ y) (x' ++ y') ↔ bytesLess x x' := by
  induction x generalizing x' with
  | nil => exact absurd (List.nil_prefix) h₁
  | cons a as ih =>
    cases x' with
    | nil => exact absurd (List.nil_prefix) h₂
    | cons b bs =>
      have e1 : bytesLess ((a :: as) ++ y) ((b :: bs) ++ y') ↔
          (a < b ∨ (a = b ∧ bytesLess (as ++ y) (bs ++ y'))) := Iff.rfl
      have e2 : bytesLess (a :: as) (b :: bs) ↔ (a < b ∨ (a = b ∧ bytesLess as bs)) := Iff.rfl
      rw [e1, e2]
      by_cases hab : a = b
      · subst hab
        have k₁ : ¬ as <+: bs := fun k => h₁ (List.cons_prefix_cons.2 ⟨rfl, k⟩)
        have k₂ : ¬ bs <+: as := fun k => h₂ (List.cons_prefix_cons.2 ⟨rfl, k⟩)
        rw [ih bs k₁ k₂]
      · simp [hab]

theorem not_prefix_of_append_eq (x x' y y' : List Char) (h : x ++ y = x' ++ y') :
    x <+: x' ∨ x' <+: x := by
  have p₁ : x <+: x ++ y := List.prefix_append x y
  have p₂ : x' <+: x ++ y := by
    rw [h]
    exact List.prefix_append x' y'
  exact List.prefix_or_prefix_of_prefix p₁ p₂

theorem prefixFree_ne (x x' : String) (h : prefixFree x x') : x ≠ x' := by
  intro e
  subst e
  exact h.1 (List.prefix_refl _)

theorem strStep (x x' : String) (Y Y' : List Char) (C Q : Prop)
    (hc : decidedStep (prefixFree x x') (x = x') C) (hrest : C → (bytesLess Y Y' ↔ Q)) :
    bytesLess (x.data ++ Y) (x'.data ++ Y') ↔ lexStep strLess x x' Q := by
  unfold lexStep strLess
  rcases hc with hfree | ⟨hsame, hC⟩
  · rw [bytesLess_append_of_prefixFree _ _ _ _ hfree.1 hfree.2]
    have hne := prefixFree_ne x x' hfree
    constructor
    · intro h
      exact Or.inl h
    · rintro (h | ⟨h, -⟩)
      · exact h
      · exact absurd h hne
  · subst hsame
    rw [bytesLess_append_left, hrest hC]
    constructor
    · intro h
      exact Or.inr ⟨rfl, h⟩
    · rintro (h | ⟨-, h⟩)
      · exact absurd h (bytesLess_irrefl _)
      · exact h

theorem sameDigits_prefixFree (s s' : Int) (h : sameDigits s s') (hne : s ≠ s') :
    ¬ (Itoa s).data <+: (Itoa s').data ∧ ¬ (Itoa s').data <+: (Itoa s).data := by
  have hl : (Itoa s).data.length = (Itoa s').data.length := h.2.2
  constructor
  · intro p
    exact hne (Itoa_injective s s' ((string_eq_iff_data _ _).2 (p.eq_of_length hl)))
  · intro p
    exact hne (Itoa_injective s s' ((string_eq_iff_data _ _).2 (p.eq_of_length hl.symm)).symm)

theorem intStep (s s' : Int) (Y Y' : List Char) (C Q : Prop)
    (hc : decidedStep (sameDigits s s' ∧ s ≠ s') (s = s') C)
    (hrest : C → (bytesLess Y Y' ↔ Q)) :
    bytesLess ((Itoa s).data ++ Y) ((Itoa s').data ++ Y') ↔ lexStep (· < ·) s s' Q := by
  unfold lexStep
  rcases hc with ⟨hd, hne⟩ | ⟨hsame, hC⟩
  · obtain ⟨p₁, p₂⟩ := sameDigits_prefixFree s s' hd hne
    rw [bytesLess_append_of_prefixFree _ _ _ _ p₁ p₂, Itoa_less_iff s s' hd.1 hd.2.1 hd.2.2]
    constructor
    · intro h
      exact Or.inl h
    · rintro (h | ⟨h, -⟩)
      · exact h
      · exact absurd h hne
  · subst hsame
    rw [bytesLess_append_left, hrest hC]
    constructor
    · intro h
      exact Or.inr ⟨rfl, h⟩
    · rintro (h | ⟨-, h⟩)
      · exact absurd h (lt_irrefl _)
      · exact h

theorem lastStep (e e' : Int) (hc : e = e' ∨ sameDigits e e') :
    bytesLess (Itoa e).data (Itoa e').data ↔ e < e' := by
  rcases hc with hsame | hd
  · subst hsame
    constructor
    · intro h
      exact absurd h (bytesLess_irrefl _)
    · intro h
      exact absurd h (lt_irrefl _)
  · exact Itoa_less_iff e e' hd.1 hd.2.1 hd.2.2

theorem LessRef_iff_tupleLess (a b : Ref) (hd : firstDifferenceDecides a b) :
    Refs.LessRef a b ↔ tupleLess a b := by
  unfold Refs.LessRef strLess tupleLess
  rw [sortKey_data a, sortKey_data b]
  refine strStep _ _ _ _ _ _ hd (fun hd => ?_)
  refine strStep _ _ _ _ _ _ hd (fun hd => ?_)
  refine strStep _ _ _ _ _ _ hd (fun hd => ?_)
  refine strStep _ _ _ _ _ _ hd (fun hd => ?_)
  refine strStep _ _ _ _ _ _ hd (fun hd => ?_)
  refine strStep _ _ _ _ _ _ hd (fun hd => ?_)
  refine strStep _ _ _ _ _ _ hd (fun hd => ?_)
  refine strStep _ _ _ _ _ _ hd (fun hd => ?_)
  refine intStep _ _ _ _ _ _ hd (fun hd => ?_)
  exact lastStep _ _ hd

theorem strInj (x x' : String) (Y Y' : List Char) (C : Prop)
    (hc : decidedStep (prefixFree x x') (x = x') C) (h : x.data ++ Y = x'.data ++ Y') :
    x = x' ∧ C ∧ Y = Y' := by
  rcases hc with hfree | ⟨hsame, hC⟩
  · rcases not_prefix_of_append_eq _ _ _ _ h with p | p
    · exact absurd p hfree.1
    · exact absurd p hfree.2
  · subst hsame
    exact ⟨rfl, hC, List.append_cancel_left h⟩

theorem intInj (s s' : Int) (Y Y' : List Char) (C : Prop)
    (hc : decidedStep (sameDigits s s' ∧ s ≠ s') (s = s') C)
    (h : (Itoa s).data ++ Y = (Itoa s').data ++ Y') : s = s' ∧ C ∧ Y = Y' := by
  rcases hc with ⟨hd, hne⟩ | ⟨hsame, hC⟩
  · obtain ⟨p₁, p₂⟩ := sameDigits_prefixFree s s' hd hne
    rcases not_prefix_of_append_eq _ _ _ _ h with p | p
    · exact absurd p p₁
    · exact absurd p p₂
  · subst hsame
    exact ⟨rfl, hC, List.append_cancel_left h⟩

theorem sortKey_injective_of_decides (a b : Ref) (hd : firstDifferenceDecides a b)
    (hk : a.sortKey = b.sortKey) : keyTuple a = keyTuple b := by
  have h : a.sortKey.data = b.sortKey.data := by rw [hk]
  rw [sortKey_data a, sortKey_data b] at h
  obtain ⟨e1, hd, h⟩ := strInj _ _ _ _ _ hd h
  obtain ⟨e2, hd, h⟩ := strInj _ _ _ _ _ hd h
  obtain ⟨e3, hd, h⟩ := strInj _ _ _ _ _ hd h
  obtain ⟨e4, hd, h⟩ := strInj _ _ _ _ _ hd h
  obtain ⟨e5, hd, h⟩ := strInj _ _ _ _ _ hd h
  obtain ⟨e6, hd, h⟩ := strInj _ _ _ _ _ hd h
  obtain ⟨e7, hd, h⟩ := strInj _ _ _ _ _ hd h
  obtain ⟨e8, hd, h⟩ := strInj _ _ _ _ _ hd h
  obtain ⟨e9, -, h⟩ := intInj _ _ _ _ _ hd h
  have e10 := Itoa_injective _ _ ((string_eq_iff_data _ _).2 h)
  unfold keyTuple
  rw [e1, e2, e3, e4, e5, e6, e7, e8, e9, e10]

theorem LessRef_trichotomy (a b : Ref) :
    (Refs.LessRef a b ∧ ¬ Refs.LessRef b a ∧ a.sortKey ≠ b.sortKey) ∨
    (¬ Refs.LessRef a b ∧ Refs.LessRef b a ∧ a.sortKey ≠ b.sortKey) ∨
    (¬ Refs.LessRef a b ∧ ¬ Refs.LessRef b a ∧ a.sortKey = b.sortKey) := by
  unfold Refs.LessRef strLess
  rcases bytesLess_trichotomy a.sortKey.data b.sortKey.data with h | h | h
  · refine Or.inl ⟨h, bytesLess_asymm _ _ h, ?_⟩
    intro he
    rw [he] at h
    exact bytesLess_irrefl _ h
  · have he : a.sortKey = b.sortKey := (string_eq_iff_data _ _).2 h
    refine Or.inr (Or.inr ⟨?_, ?_, he⟩)
    · rw [he]
      exact bytesLess_irrefl _
    · rw [he]
      exact bytesLess_irrefl _
  · refine Or.inr (Or.inl ⟨bytesLess_asymm _ _ h, h, ?_⟩)
    intro he
    rw [he] at h
    exact bytesLess_irrefl _ h

theorem sorted_unique (l₁ l₂ : Refs) (hp : l₁.Perm l₂)
    (hd : l₁.Pairwise (fun x y => x.sortKey ≠ y.sortKey))
    (h₁ : l₁.Pairwise (fun x y => ¬ Refs.LessRef y x))
    (h₂ : l₂.Pairwise (fun x y => ¬ Refs.LessRef y x)) : l₁ = l₂ := by
  have hd₂ : l₂.Pairwise (fun x y => x.sortKey ≠ y.sortKey) :=
    hp.pairwise hd (fun h => fun e => h e.symm)
  have up : ∀ l : Refs, l.Pairwise (fun x y => x.sortKey ≠ y.sortKey) →
      l.Pairwise (fun x y => ¬ Refs.LessRef y x) → l.Pairwise Refs.LessRef := by
    intro l hdl hsl
    have hboth := hdl.and hsl
    refine hboth.imp ?_
    rintro x y ⟨hne, hnl⟩
    rcases LessRef_trichotomy x y with h | h | h
    · exact h.1
    · exact absurd h.2.1 hnl
    · exact absurd h.2.2 hne
  haveI : IsAntisymm Ref Refs.LessRef :=
    ⟨fun x y hxy hyx => absurd hyx (bytesLess_asymm _ _ hxy)⟩
  exact List.eq_of_perm_of_sorted hp (up l₁ hd h₁) (up l₂ hd₂ h₂)

/-- C1, as stated, fails.  The ref `(DefPath = a, DefRepo = c)` has a smaller
key tuple than the ref `(DefPath = ab)`, but `Refs.Less` does not place it
first, its sort key `ac00` being larger than `ab00`; and `Refs.Less` places a
ref with `Start = 10` before one with `Start = 9`, comparing `1010` with `99`,
although its tuple is larger. -/
theorem C1_less_differs_from_tuple_order :
    (tupleLess refPathA_RepoC refPathAB ∧
      ¬ Refs.Less [refPathA_RepoC, refPathAB] ⟨0, by decide⟩ ⟨1, by decide⟩) ∧
    (Refs.Less [refStart10, refStart9] ⟨0, by decide⟩ ⟨1, by decide⟩ ∧
      ¬ tupleLess refStart10 refStart9) := by
  decide

/-- C1, amended: for every two refs of a slice such that, at the first part of
the key tuple in which they differ, neither value is a prefix of the other
when this is one of the eight string parts, and both values are non-negative
with equally many decimal digits when this is `Start` or `End`, `Refs.Less`
places the first before the second exactly when its tuple `(DefPath, DefRepo,
DefUnitType, DefUnit, Repo, UnitType, Unit, File, Start, End)` is
lexicographically smaller, strings compared as strings and `Start` and `End`
as integers. -/
theorem C1_less_iff_tuple_order_when_decided (vs : Refs) (i j : Fin vs.length)
    (hd : firstDifferenceDecides (vs.get i) (vs.get j)) :
    Refs.Less vs i j ↔ tupleLess (vs.get i) (vs.get j) := by
  unfold Refs.Less
  exact LessRef_iff_tupleLess _ _ hd

/-- Concrete instance: a ref to `foo/bar` and a ref to `foo/baz/qux`, which
differ first in the seventh byte of `DefPath`. -/
theorem C1_less_iff_tuple_order_when_decided_witness :
    firstDifferenceDecides refFooBar refFooBazQux ∧
    (Refs.Less [refFooBar, refFooBazQux] ⟨0, by decide⟩ ⟨1, by decide⟩ ↔
      tupleLess refFooBar refFooBazQux) :=
  ⟨by decide,
   C1_less_iff_tuple_order_when_decided [refFooBar, refFooBazQux]
     ⟨0, by decide⟩ ⟨1, by decide⟩ (by decide)⟩

/-- C2, as stated, fails: the refs `(DefPath = a, DefRepo = b)` and
`(DefPath = ab)` have different key tuples and the same sort key `ab00`, so
neither is placed before the other. -/
theorem C2_distinct_tuples_equal_sort_key :
    keyTuple refPathA_RepoB ≠ keyTuple refPathAB ∧
    refPathA_RepoB.sortKey = refPathAB.sortKey ∧
    ¬ Refs.LessRef refPathA_RepoB refPathAB ∧ ¬ Refs.LessRef refPathAB refPathA_RepoB := by
  refine ⟨by decide, by decide, by decide, by decide⟩

/-- C2, amended: the sort key orders the refs totally by their key strings:
for every two refs exactly one of `Less(a, b)`, `Less(b, a)` and
`sortKey(a) = sortKey(b)` holds.  Two refs whose key tuples differ have
different sort keys, and so exactly one of `Less(a, b)` and `Less(b, a)` holds,
when at the first key part in which they differ neither value is a prefix of
the other (a string part) or both values are non-negative with equally many
decimal digits (`Start`, `End`).  The sorted order of a list of refs with
pairwise distinct sort keys is uniquely determined. -/
theorem C2_sort_key_total_on_key_strings :
    (∀ a b : Ref,
      (Refs.LessRef a b ∧ ¬ Refs.LessRef b a ∧ a.sortKey ≠ b.sortKey) ∨
      (¬ Refs.LessRef a b ∧ Refs.LessRef b a ∧ a.sortKey ≠ b.sortKey) ∨
      (¬ Refs.LessRef a b ∧ ¬ Refs.LessRef b a ∧ a.sortKey = b.sortKey)) ∧
    (∀ a b : Ref, firstDifferenceDecides a b → keyTuple a ≠ keyTuple b →
      a.sortKey ≠ b.sortKey ∧
      ((Refs.LessRef a b ∧ ¬ Refs.LessRef b a) ∨ (¬ Refs.LessRef a b ∧ Refs.LessRef b a))) ∧
    (∀ l₁ l₂ : Refs, l₁.Perm l₂ →
      l₁.Pairwise (fun x y => x.sortKey ≠ y.sortKey) →
      l₁.Pairwise (fun x y => ¬ Refs.LessRef y x) →
      l₂.Pairwise (fun x y => ¬ Refs.LessRef y x) → l₁ = l₂) := by
  refine ⟨LessRef_trichotomy, ?_, sorted_unique⟩
  intro a b hd hne
  have hk : a.sortKey ≠ b.sortKey :=
    fun hk => hne (sortKey_injective_of_decides a b hd hk)
  refine ⟨hk, ?_⟩
  rcases LessRef_trichotomy a b with h | h | h
  · exact Or.inl ⟨h.1, h.2.1⟩
  · exact Or.inr ⟨h.1, h.2.1⟩
  · exact absurd h.2.2 hk

/-- Concrete instance: a ref to `foo/bar` and a ref to `foo/baz/qux` have
different sort keys, and the list of the two in this order is the one sorted
list with these elements. -/
theorem C2_sort_key_total_on_key_strings_witness :
    firstDifferenceDecides refFooBar refFooBazQux ∧
    keyTuple refFooBar ≠ keyTuple refFooBazQux ∧
    refFooBar.sortKey ≠ refFooBazQux.sortKey ∧
    [refFooBar, refFooBazQux] = [refFooBar, refFooBazQux] :=
  ⟨by decide, by decide,
   (C2_sort_key_total_on_key_strings.2.1 refFooBar refFooBazQux (by decide) (by decide)).1,
   C2_sort_key_total_on_key_strings.2.2 [refFooBar, refFooBazQux] [refFooBar, refFooBazQux]
     (List.Perm.refl _) (by decide) (by decide) (by decide)⟩

end Srclib
